import Mathlib

/-!
Verification of the retrieval-and-normalization engine of the r7-tiktok-api-site
repository, shallowly embedded in Lean 4.

The embedding follows the JavaScript source (primarily the TikTok handler module
and the YouTube handler module): pure helper functions become Lean functions,
the stateful cache and rate limiter become explicit state passing, JavaScript
`null`/`undefined` becomes `Option`, and JavaScript's guaranteed-stable
`Array.prototype.sort` with the comparator `(a, b) => bTime - aTime` becomes a
stable insertion sort by non-increasing key.
-/

/-- A JavaScript primitive value as it appears in the raw-item fields the
normalizer inspects: a string or an (integral) number.  `Option JsPrim` models
a field that may also be absent (`undefined`/`null`). -/
inductive JsPrim where
  | str (s : String)
  | num (n : Int)
deriving DecidableEq

/-- Value of a maximal digit run, `none` if the run is empty.  Helper for
`parseIntStr`. -/
def digitRunVal (cs : List Char) : Option Nat :=
  let ds := cs.takeWhile Char.isDigit
  if ds.isEmpty then none
  else some (ds.foldl (fun a c => 10 * a + (c.toNat - 48)) 0)

/-- JavaScript `Number.parseInt(s, 10)`: skip leading whitespace, optional
sign, then a maximal run of decimal digits; `NaN` (here `none`) when no digit
follows.  Trailing garbage is ignored. -/
def parseIntStr (s : String) : Option Int :=
  match s.data.dropWhile Char.isWhitespace with
  | '-' :: rest => (digitRunVal rest).map (fun n => -(n : Int))
  | '+' :: rest => (digitRunVal rest).map (fun n => (n : Int))
  | rest => (digitRunVal rest).map (fun n => (n : Int))

/-- `Number.parseInt(v, 10)` on a primitive: numbers are stringified first,
which for integral numbers parses back to the same integer. -/
def parseIntJs (v : JsPrim) : Option Int :=
  match v with
  | .str s => parseIntStr s
  | .num n => some n

/-- One canonical record (`normalizeVideos` output shape in the TikTok
module): `{ video_id, url, description, epoch_time_posted, views, likes,
comments, shares }`. -/
structure Video where
  video_id : String
  url : String
  description : Option String
  epoch_time_posted : Option Int
  views : Option Int
  likes : Option Int
  comments : Option Int
  shares : Option Int
deriving DecidableEq

/-- Sort key used by the handler's comparator
`(a, b) => bTime - aTime` where a non-number `epoch_time_posted` is taken
as `0`. -/
def epochKey (v : Video) : Int :=
  match v.epoch_time_posted with
  | some e => e
  | none => 0

/-- The order the comparator establishes: `a` may precede `b` when
`epochKey b ≤ epochKey a` (non-increasing timestamps). -/
def videoGE (a b : Video) : Prop := epochKey b ≤ epochKey a

instance : DecidableRel videoGE := fun a b =>
  inferInstanceAs (Decidable (epochKey b ≤ epochKey a))

instance : IsTotal Video videoGE :=
  ⟨fun a b => (le_total (epochKey b) (epochKey a)).imp id id⟩

instance : IsTrans Video videoGE :=
  ⟨fun _ _ _ h₁ h₂ => le_trans h₂ h₁⟩

/-- The handler's in-place `filteredVideos.sort((a, b) => bTime - aTime)`:
JavaScript sort is stable, so this is the stable sort by non-increasing
`epochKey`. -/
def sortVideosDesc (l : List Video) : List Video :=
  List.insertionSort videoGE l

/-- `filterVideosByEpoch(videos, startEpoch, endEpoch)`: with no active bound
the list passes through; otherwise a record passes iff its
`epoch_time_posted` is a number within the inclusive bounds. -/
def filterVideosByEpoch (videos : List Video) (startEpoch endEpoch : Option Int) :
    List Video :=
  if !startEpoch.isSome && !endEpoch.isSome then videos
  else
    videos.filter fun v =>
      match v.epoch_time_posted with
      | none => false
      | some t =>
        if startEpoch.any (fun s => decide (t < s)) then false
        else if endEpoch.any (fun e => decide (e < t)) then false
        else true

/-- Shape of the successful response `meta` plus `data` built by the handler
after filtering, sorting and slicing. -/
structure PageResult where
  page : Nat
  total_pages : Nat
  posts_per_page : Nat
  total_posts : Nat
  first_video_epoch : Option Int
  last_video_epoch : Option Int
  data : List Video
deriving DecidableEq

/-- The pagination step of the handler: filter by epoch, sort descending,
compute `totalPages = Math.ceil(totalPosts / perPageNum)` (guarded by
`perPageNum > 0`), slice `[(pageNum-1)*perPageNum, pageNum*perPageNum)`, and
report the first/last epoch of the whole filtered (sorted) set with `?? null`
collapsing. -/
def paginateStep (videos : List Video) (startEpoch endEpoch : Option Int)
    (pageNum perPageNum : Nat) : PageResult :=
  let filtered := filterVideosByEpoch videos startEpoch endEpoch
  let sorted := sortVideosDesc filtered
  let totalPosts := sorted.length
  let totalPages := if 0 < perPageNum then (totalPosts + perPageNum - 1) / perPageNum else 0
  let startIndex := (pageNum - 1) * perPageNum
  { page := pageNum
    total_pages := totalPages
    posts_per_page := perPageNum
    total_posts := totalPosts
    first_video_epoch := sorted.head?.bind (·.epoch_time_posted)
    last_video_epoch := sorted.getLast?.bind (·.epoch_time_posted)
    data := (sorted.drop startIndex).take perPageNum }

/-! ### C1 — pagination step -/

/-- Filtering never invents records: the filtered list is a sublist of the
input. -/
theorem filterVideosByEpoch_subset (videos : List Video) (s e : Option Int) :
    filterVideosByEpoch videos s e ⊆ videos := by
  unfold filterVideosByEpoch
  split
  · exact fun _ h => h
  · exact (List.filter_sublist _).subset

/-- For `0 < a`, `(a + b - 1) / b` shifts to `(a - 1) / b + 1`. -/
theorem ceilDiv_shift (a b : Nat) (hb : 0 < b) (ha : 0 < a) :
    (a + b - 1) / b = (a - 1) / b + 1 := by
  have h : a + b - 1 = (a - 1) + b := by omega
  rw [h, Nat.add_div_right _ hb]

/-- `(a + b - 1) / b` is an upper `ceil`: `b` times it covers `a`. -/
theorem ceilDiv_ge (a b : Nat) (hb : 0 < b) : a ≤ ((a + b - 1) / b) * b := by
  rcases Nat.eq_zero_or_pos a with ha | ha
  · simp [ha]
  · have h := Nat.div_add_mod (a - 1) b
    have h2 := Nat.mod_lt (a - 1) hb
    rw [ceilDiv_shift a b hb ha, Nat.add_mul, one_mul, Nat.mul_comm]
    omega

/-- `(a + b - 1) / b` is the least such bound: one page fewer misses part
of `a`. -/
theorem ceilDiv_lt (a b : Nat) (hb : 0 < b) (ha : 0 < a) :
    (((a + b - 1) / b) - 1) * b < a := by
  rw [ceilDiv_shift a b hb ha, Nat.add_sub_cancel]
  exact lt_of_le_of_lt (Nat.div_mul_le_self (a - 1) b) (by omega)

theorem sortVideosDesc_sorted (l : List Video) :
    List.Sorted videoGE (sortVideosDesc l) :=
  List.sorted_insertionSort videoGE l

theorem sortVideosDesc_perm (l : List Video) :
    (sortVideosDesc l).Perm l :=
  List.perm_insertionSort videoGE l

/-- C1: for every record list and valid query (`page ≥ 1`,
`pageSize ∈ [1,100]`, every known timestamp positive as the normalizer
guarantees), the pagination step sorts the filtered records by
non-increasing `postedAtEpoch` with null-timestamp records last, returns
exactly the slice `[(page-1)*pageSize, page*pageSize)` of that sorted list
(hence never more than `pageSize` items, and an empty slice — not an
error — beyond the data), reports `total` as the filtered count and
`totalPages` as `ceil(total/pageSize)` (`0` when `total = 0`), and reports
`firstEpoch`/`lastEpoch` from the whole filtered set (`null` when it is
empty). -/
theorem c1_pagination (videos : List Video) (startEpoch endEpoch : Option Int)
    (pageNum perPageNum : Nat)
    (hpage : 1 ≤ pageNum) (hmin : 1 ≤ perPageNum) (hmax : perPageNum ≤ 100)
    (hpos : ∀ v ∈ videos, ∀ t, v.epoch_time_posted = some t → 0 < t) :
    List.Sorted videoGE
        (sortVideosDesc (filterVideosByEpoch videos startEpoch endEpoch))
    ∧ (sortVideosDesc (filterVideosByEpoch videos startEpoch endEpoch)).Perm
        (filterVideosByEpoch videos startEpoch endEpoch)
    ∧ List.Pairwise (fun a b => a.epoch_time_posted = none → b.epoch_time_posted = none)
        (sortVideosDesc (filterVideosByEpoch videos startEpoch endEpoch))
    ∧ (paginateStep videos startEpoch endEpoch pageNum perPageNum).data =
        ((sortVideosDesc (filterVideosByEpoch videos startEpoch endEpoch)).drop
          ((pageNum - 1) * perPageNum)).take perPageNum
    ∧ (paginateStep videos startEpoch endEpoch pageNum perPageNum).data.length ≤ perPageNum
    ∧ ((filterVideosByEpoch videos startEpoch endEpoch).length ≤ (pageNum - 1) * perPageNum →
        (paginateStep videos startEpoch endEpoch pageNum perPageNum).data = [])
    ∧ (paginateStep videos startEpoch endEpoch pageNum perPageNum).total_posts =
        (filterVideosByEpoch videos startEpoch endEpoch).length
    ∧ (paginateStep videos startEpoch endEpoch pageNum perPageNum).total_pages =
        ((filterVideosByEpoch videos startEpoch endEpoch).length + perPageNum - 1) / perPageNum
    ∧ ((filterVideosByEpoch videos startEpoch endEpoch).length = 0 →
        (paginateStep videos startEpoch endEpoch pageNum perPageNum).total_pages = 0)
    ∧ (filterVideosByEpoch videos startEpoch endEpoch).length ≤
        (paginateStep videos startEpoch endEpoch pageNum perPageNum).total_pages * perPageNum
    ∧ (0 < (filterVideosByEpoch videos startEpoch endEpoch).length →
        ((paginateStep videos startEpoch endEpoch pageNum perPageNum).total_pages - 1) *
          perPageNum < (filterVideosByEpoch videos startEpoch endEpoch).length)
    ∧ (paginateStep videos startEpoch endEpoch pageNum perPageNum).first_video_epoch =
        (sortVideosDesc (filterVideosByEpoch videos startEpoch endEpoch)).head?.bind
          (·.epoch_time_posted)
    ∧ (paginateStep videos startEpoch endEpoch pageNum perPageNum).last_video_epoch =
        (sortVideosDesc (filterVideosByEpoch videos startEpoch endEpoch)).getLast?.bind
          (·.epoch_time_posted)
    ∧ (filterVideosByEpoch videos startEpoch endEpoch = [] →
        (paginateStep videos startEpoch endEpoch pageNum perPageNum).first_video_epoch = none
        ∧ (paginateStep videos startEpoch endEpoch pageNum perPageNum).last_video_epoch = none) := by
  have hperm := sortVideosDesc_perm (filterVideosByEpoch videos startEpoch endEpoch)
  have hlen := hperm.length_eq
  have hsorted := sortVideosDesc_sorted (filterVideosByEpoch videos startEpoch endEpoch)
  have hmem : ∀ v ∈ sortVideosDesc (filterVideosByEpoch videos startEpoch endEpoch),
      v ∈ videos := fun v hv =>
    filterVideosByEpoch_subset videos startEpoch endEpoch (hperm.mem_iff.mp hv)
  have hpp : 0 < perPageNum := hmin
  refine ⟨hsorted, hperm, ?_, ?_, ?_, ?_, ?_, ?_, ?_, ?_, ?_, ?_, ?_, ?_⟩
  · refine List.Pairwise.imp_of_mem ?_ hsorted
    intro a b ha hb hab hnone
    cases hbe : b.epoch_time_posted with
    | none => rfl
    | some t =>
      exfalso
      have hbt : 0 < t := hpos b (hmem b hb) t hbe
      have : epochKey b ≤ epochKey a := hab
      simp [epochKey, hnone, hbe] at this
      omega
  · simp [paginateStep]
  · simp only [paginateStep]
    exact List.length_take_le perPageNum _
  · intro hle
    have : (sortVideosDesc (filterVideosByEpoch videos startEpoch endEpoch)).drop
        ((pageNum - 1) * perPageNum) = [] :=
      List.drop_eq_nil_of_le (by omega)
    simp [paginateStep, this]
  · simp [paginateStep, hlen]
  · simp [paginateStep, hlen, hpp]
  · intro h0
    simp only [paginateStep, hlen, h0, if_pos hpp]
    exact Nat.div_eq_of_lt (by omega)
  · simp only [paginateStep, hlen, if_pos hpp]
    exact ceilDiv_ge _ perPageNum hpp
  · intro hlpos
    simp only [paginateStep, hlen, if_pos hpp]
    exact ceilDiv_lt _ perPageNum hpp hlpos
  · simp [paginateStep]
  · simp [paginateStep]
  · intro hemp
    have hs : sortVideosDesc (filterVideosByEpoch videos startEpoch endEpoch) = [] :=
      List.Perm.eq_nil (hemp ▸ hperm)
    simp [paginateStep, hs]

/-- Concrete records for exercising the pagination theorem. -/
def c1wVids : List Video :=
  [ { video_id := "1", url := "u1", description := none, epoch_time_posted := some 5,
      views := none, likes := none, comments := none, shares := none },
    { video_id := "2", url := "u2", description := none, epoch_time_posted := none,
      views := none, likes := none, comments := none, shares := none },
    { video_id := "3", url := "u3", description := none, epoch_time_posted := some 9,
      views := none, likes := none, comments := none, shares := none } ]

/-- Witness for `c1_pagination` at a concrete query (`page = 1`,
`pageSize = 2`, three records). -/
theorem c1_pagination_witness :
    (paginateStep c1wVids none none 1 2).data =
      ((sortVideosDesc (filterVideosByEpoch c1wVids none none)).drop ((1 - 1) * 2)).take 2
    ∧ (paginateStep c1wVids none none 1 2).data.length ≤ 2
    ∧ (paginateStep c1wVids none none 1 2).total_posts =
        (filterVideosByEpoch c1wVids none none).length
    ∧ (paginateStep c1wVids none none 1 2).total_pages =
        ((filterVideosByEpoch c1wVids none none).length + 2 - 1) / 2 := by
  have h := c1_pagination c1wVids none none 1 2 (by norm_num) (by norm_num) (by norm_num)
    (by
      intro v hv t ht
      simp only [c1wVids, List.mem_cons, List.not_mem_nil, or_false] at hv
      rcases hv with rfl | rfl | rfl <;> simp_all <;> omega)
  exact ⟨h.2.2.2.1, h.2.2.2.2.1, h.2.2.2.2.2.2.1, h.2.2.2.2.2.2.2.1⟩

/-! ### C8 — epoch filter -/

/-- C8: with no active bound the record list passes through unchanged; with
at least one active bound, a record is retained iff its `postedAtEpoch` is a
number inside the inclusive bounds (so null timestamps are excluded), and
`startEpoch == endEpoch` matches exactly the records whose timestamp equals
that value. -/
theorem c8_epoch_filter (videos : List Video) (startEpoch endEpoch : Option Int) :
    filterVideosByEpoch videos none none = videos
    ∧ (startEpoch.isSome ∨ endEpoch.isSome →
        ∀ v, v ∈ filterVideosByEpoch videos startEpoch endEpoch ↔
          v ∈ videos ∧ ∃ t, v.epoch_time_posted = some t
            ∧ (∀ s, startEpoch = some s → s ≤ t)
            ∧ (∀ e, endEpoch = some e → t ≤ e))
    ∧ (startEpoch.isSome ∨ endEpoch.isSome →
        ∀ v ∈ filterVideosByEpoch videos startEpoch endEpoch, v.epoch_time_posted ≠ none)
    ∧ (∀ x : Int, filterVideosByEpoch videos (some x) (some x) =
        videos.filter (fun v => decide (v.epoch_time_posted = some x))) := by
  refine ⟨by simp [filterVideosByEpoch], ?_, ?_, ?_⟩
  · intro hactive v
    have hcond : (!startEpoch.isSome && !endEpoch.isSome) = false := by
      rcases hactive with h | h <;> simp [h]
    simp only [filterVideosByEpoch, hcond, Bool.false_eq_true, if_false, List.mem_filter]
    constructor
    · rintro ⟨hv, hp⟩
      refine ⟨hv, ?_⟩
      cases hve : v.epoch_time_posted with
      | none => simp [hve] at hp
      | some t =>
        refine ⟨t, rfl, ?_, ?_⟩
        · intro s hs
          subst hs
          simp [hve, Option.any] at hp
          omega
        · intro e he
          subst he
          simp [hve, Option.any] at hp
          rcases startEpoch with _ | s <;> simp_all
    · rintro ⟨hv, t, hve, hs, he⟩
      refine ⟨hv, ?_⟩
      simp only [hve]
      rcases startEpoch with _ | s <;> rcases endEpoch with _ | e <;>
        simp_all [Option.any]
  · intro hactive v hv
    have h := hv
    have hcond : (!startEpoch.isSome && !endEpoch.isSome) = false := by
      rcases hactive with h | h <;> simp [h]
    simp only [filterVideosByEpoch, hcond, Bool.false_eq_true, if_false,
      List.mem_filter] at h
    cases hve : v.epoch_time_posted with
    | none => simp [hve] at h
    | some t => simp [hve]
  · intro x
    simp only [filterVideosByEpoch, Option.isSome_some, Bool.not_true, Bool.and_self,
      Bool.false_eq_true, if_false]
    apply List.filter_congr
    intro v _
    cases hve : v.epoch_time_posted with
    | none => simp [hve]
    | some t =>
      by_cases h : t = x
      · simp [hve, h, Option.any]
      · simp only [hve, Option.any, Option.some.injEq]
        have h2 : x < t ∨ t < x := by omega
        rcases h2 with h1 | h1 <;> simp_all

/-- A single record with a known timestamp, for the filter witness. -/
def vid5 : Video :=
  { video_id := "5", url := "u5", description := none, epoch_time_posted := some 5,
    views := none, likes := none, comments := none, shares := none }

/-- Witness for `c8_epoch_filter`: an active lower bound at a concrete
record. -/
theorem c8_epoch_filter_witness :
    vid5 ∈ filterVideosByEpoch [vid5] (some 3) none ↔
      vid5 ∈ [vid5] ∧ ∃ t, vid5.epoch_time_posted = some t
        ∧ (∀ s, (some (3 : Int)) = some s → s ≤ t)
        ∧ (∀ e, (none : Option Int) = some e → t ≤ e) :=
  (c8_epoch_filter [vid5] (some 3) none).2.1 (Or.inl (by decide)) vid5

/-! ### Normalizer embedding (C2, C3) -/

/-- The `stats`/`statistics`/`itemInfos` sub-objects of a raw TikTok item:
every field the extractors consult, each possibly absent. -/
structure StatsBag where
  playCount : Option JsPrim := none
  play_count : Option JsPrim := none
  viewCount : Option JsPrim := none
  view_count : Option JsPrim := none
  diggCount : Option JsPrim := none
  likeCount : Option JsPrim := none
  like_count : Option JsPrim := none
  commentCount : Option JsPrim := none
  comment_count : Option JsPrim := none
  shareCount : Option JsPrim := none
  share_count : Option JsPrim := none
  createTime : Option JsPrim := none
deriving DecidableEq

/-- The nested `video` sub-object (`video.video.id`). -/
structure InnerVideo where
  id : Option JsPrim := none
deriving DecidableEq

/-- A raw item as the TikTok normalizer sees it: every path the ordered
field-extraction rules consult, each possibly absent or of either primitive
type.  (A `null` array element behaves like a record with every field
absent.) -/
structure RawVideo where
  id : Option JsPrim := none
  aweme_id : Option JsPrim := none
  video : Option InnerVideo := none
  awemeId : Option JsPrim := none
  videoUrl : Option JsPrim := none
  share_url : Option JsPrim := none
  playUrl : Option JsPrim := none
  desc : Option JsPrim := none
  description : Option JsPrim := none
  title : Option JsPrim := none
  createTime : Option JsPrim := none
  create_time : Option JsPrim := none
  timestamp : Option JsPrim := none
  publishedTime : Option JsPrim := none
  itemInfos : Option StatsBag := none
  stats : Option StatsBag := none
  statistics : Option StatsBag := none
deriving DecidableEq

/-- JavaScript `s.trim()`: strip leading and trailing whitespace.
(Char-list implementation so concrete inputs evaluate in the kernel.) -/
def jsTrim (s : String) : String :=
  String.mk (((s.data.dropWhile Char.isWhitespace).reverse.dropWhile
    Char.isWhitespace).reverse)

/-- JavaScript `s.startsWith(p)`. -/
def jsStartsWith (s p : String) : Bool :=
  p.data.isPrefixOf s.data

/-- `typeof x === 'string' && x.trim()`: a present string field whose trim
is non-empty, yielding the trimmed value. -/
def trimmedStr (f : Option JsPrim) : Option String :=
  match f with
  | some (.str s) => if jsTrim s = "" then none else some (jsTrim s)
  | _ => none

/-- First `/video\/(\d+)/` match: scan for the literal `video/` followed by
at least one digit and return that digit run. -/
def scanVideoId : List Char → Option String
  | [] => none
  | c :: rest =>
    let l := c :: rest
    if ['v', 'i', 'd', 'e', 'o', '/'].isPrefixOf l then
      let ds := (l.drop 6).takeWhile Char.isDigit
      if ds.isEmpty then scanVideoId rest else some (String.mk ds)
    else scanVideoId rest

/-- The id captured by `url.match(/video\/(\d+)/)` when the field holds a
string. -/
def urlVideoId (f : Option JsPrim) : Option String :=
  match f with
  | some (.str s) => scanVideoId s.data
  | _ => none

/-- `extractVideoId(video)`: ordered candidates `id`, `aweme_id`,
`video.id`, `awemeId`, then the `/video\/(\d+)/` capture from `videoUrl`
and `share_url`; `null` when none yields a value. -/
def extractVideoId (v : RawVideo) : Option String :=
  (trimmedStr v.id).orElse fun _ =>
  (trimmedStr v.aweme_id).orElse fun _ =>
  (trimmedStr (v.video.bind (·.id))).orElse fun _ =>
  (trimmedStr v.awemeId).orElse fun _ =>
  (urlVideoId v.videoUrl).orElse fun _ =>
  urlVideoId v.share_url

/-- A present string field starting with `http`. -/
def httpStr (f : Option JsPrim) : Option String :=
  match f with
  | some (.str s) => if jsStartsWith s ("http") then some s else none
  | _ => none

/-- `username.replace(/^@/, '')`: strip one leading `@`. -/
def stripAt (username : String) : String :=
  if jsStartsWith username ("@") then (username.drop 1) else username

/-- `resolveVideoUrl(video, username, videoId)`: first `http`-prefixed
candidate among `videoUrl`, `share_url`, `playUrl`, else the canonical
profile URL synthesised from the username and id (the username is always a
string in the handler, so that guard always passes), else `null`. -/
def resolveVideoUrl (v : RawVideo) (username : String) (videoId : Option String) :
    Option String :=
  (httpStr v.videoUrl).orElse fun _ =>
  (httpStr v.share_url).orElse fun _ =>
  (httpStr v.playUrl).orElse fun _ =>
  videoId.map fun vid =>
    "https://www.tiktok.com/@" ++ stripAt username ++ "/video/" ++ vid

/-- `extractDescription(video)`: `desc ?? description ?? title`, then only a
string with non-empty trim survives. -/
def extractDescription (v : RawVideo) : Option String :=
  let value := (v.desc.orElse fun _ => v.description.orElse fun _ => v.title)
  match value with
  | some (.str s) => if (jsTrim s).length = 0 then none else some (jsTrim s)
  | _ => none

/-- One timestamp candidate: parses to a positive integer or is skipped. -/
def epochCandidate (c : Option JsPrim) : Option Int :=
  match c with
  | none => none
  | some p =>
    match parseIntJs p with
    | some n => if 0 < n then some n else none
    | none => none

/-- The candidate list of `extractEpochTime`, in source order. -/
def epochCandidates (v : RawVideo) : List (Option JsPrim) :=
  [v.createTime, v.create_time, v.timestamp, v.publishedTime,
   v.itemInfos.bind (·.createTime), v.statistics.bind (·.createTime)]

/-- `extractEpochTime(video)`: first candidate that parses to a positive
integer, else `null`. -/
def extractEpochTime (v : RawVideo) : Option Int :=
  (epochCandidates v).findSome? epochCandidate

/-- `sanitizeStat(value)`: absent stays `null`, unparsable stays `null`, a
parsed integer is clamped below at `0`. -/
def sanitizeStat (value : Option JsPrim) : Option Int :=
  match value with
  | none => none
  | some p =>
    match parseIntJs p with
    | none => none
    | some n => some (max n 0)

/-- The empty `{}` fallback of `video?.stats || video?.statistics || {}`. -/
def emptyStats : StatsBag := {}

/-- The stats source object chosen by `extractStats` (objects are truthy, so
presence decides). -/
def statsSource (v : RawVideo) : StatsBag :=
  v.stats.getD (v.statistics.getD emptyStats)

/-- `extractStats(video).views`. -/
def statViews (v : RawVideo) : Option Int :=
  let sb := statsSource v
  sanitizeStat
    (sb.playCount.orElse fun _ => sb.play_count.orElse fun _ =>
      sb.viewCount.orElse fun _ => sb.view_count)

/-- `extractStats(video).likes`. -/
def statLikes (v : RawVideo) : Option Int :=
  let sb := statsSource v
  sanitizeStat (sb.diggCount.orElse fun _ => sb.likeCount.orElse fun _ => sb.like_count)

/-- `extractStats(video).comments`. -/
def statComments (v : RawVideo) : Option Int :=
  let sb := statsSource v
  sanitizeStat (sb.commentCount.orElse fun _ => sb.comment_count)

/-- `extractStats(video).shares`. -/
def statShares (v : RawVideo) : Option Int :=
  let sb := statsSource v
  sanitizeStat (sb.shareCount.orElse fun _ => sb.share_count)

/-- The record pushed for one raw item that passed the id/url guard. -/
def buildRecord (username : String) (v : RawVideo) (vid url : String) : Video :=
  { video_id := vid
    url := url
    description := extractDescription v
    epoch_time_posted := extractEpochTime v
    views := statViews v
    likes := statLikes v
    comments := statComments v
    shares := statShares v }

/-- The loop body of `normalizeVideos` with the `seenIds` set made
explicit. -/
def normalizeGo (username : String) : List RawVideo → List String → List Video
  | [], _ => []
  | v :: rest, seen =>
    match extractVideoId v, resolveVideoUrl v username (extractVideoId v) with
    | some vid, some url =>
      if vid ∈ seen then normalizeGo username rest seen
      else buildRecord username v vid url :: normalizeGo username rest (vid :: seen)
    | some _, none => normalizeGo username rest seen
    | none, _ => normalizeGo username rest seen

/-- `normalizeVideos(videos, username)`: skip items with no id or no url,
deduplicate by id keeping the first occurrence. -/
def normalizeVideos (videos : List RawVideo) (username : String) : List Video :=
  normalizeGo username videos []

/-! ### C2 — deduplication by id -/

/-- What one raw item contributes before deduplication: `none` when its id
or url cannot be resolved, otherwise the built record. -/
def toCanonical (username : String) (v : RawVideo) : Option Video :=
  match extractVideoId v, resolveVideoUrl v username (extractVideoId v) with
  | some vid, some url => some (buildRecord username v vid url)
  | some _, none => none
  | none, _ => none

/-- Keep the first record per `video_id`, skipping ids already seen. -/
def dedupSeen : List Video → List String → List Video
  | [], _ => []
  | r :: rest, seen =>
    if r.video_id ∈ seen then dedupSeen rest seen
    else r :: dedupSeen rest (r.video_id :: seen)

/-- The normalizer loop is exactly: drop unresolvable items, then keep the
first record per id. -/
theorem normalizeGo_eq_dedupSeen (username : String) :
    ∀ (videos : List RawVideo) (seen : List String),
      normalizeGo username videos seen =
        dedupSeen (videos.filterMap (toCanonical username)) seen := by
  intro videos
  induction videos with
  | nil => intro seen; rfl
  | cons v rest ih =>
    intro seen
    rw [List.filterMap_cons]
    cases h1 : extractVideoId v with
    | none =>
      have hc : toCanonical username v = none := by
        unfold toCanonical; rw [h1]
      rw [hc]
      simp only [normalizeGo]
      rw [h1]
      exact ih seen
    | some vid =>
      cases h2 : resolveVideoUrl v username (extractVideoId v) with
      | none =>
        have hc : toCanonical username v = none := by
          unfold toCanonical; rw [h1]; rw [h1] at h2; rw [h2]
        rw [hc]
        simp only [normalizeGo]
        rw [h1]
        rw [h1] at h2
        rw [h2]
        exact ih seen
      | some url =>
        have hc : toCanonical username v = some (buildRecord username v vid url) := by
          unfold toCanonical; rw [h1]; rw [h1] at h2; rw [h2]
        rw [hc]
        simp only [normalizeGo]
        rw [h1]
        rw [h1] at h2
        rw [h2]
        simp only [dedupSeen, buildRecord]
        split <;> simp [ih, buildRecord]

/-- Results of `dedupSeen` have pairwise-distinct ids, none of them already
seen. -/
theorem dedupSeen_nodup :
    ∀ (l : List Video) (seen : List String),
      ((dedupSeen l seen).map (·.video_id)).Nodup
      ∧ ∀ r ∈ dedupSeen l seen, r.video_id ∉ seen := by
  intro l
  induction l with
  | nil => intro seen; simp [dedupSeen]
  | cons x rest ih =>
    intro seen
    by_cases hx : x.video_id ∈ seen
    · simpa [dedupSeen, hx] using ih seen
    · have ih' := ih (x.video_id :: seen)
      refine ⟨?_, ?_⟩
      · simp only [dedupSeen, hx, if_false, List.map_cons, List.nodup_cons]
        refine ⟨?_, ih'.1⟩
        intro hmem
        obtain ⟨r, hr, hrid⟩ := List.mem_map.mp hmem
        exact (ih'.2 r hr) (by simp [hrid])
      · intro r hr
        simp only [dedupSeen, hx, if_false, List.mem_cons] at hr
        rcases hr with rfl | hr
        · exact hx
        · have := ih'.2 r hr
          simp only [List.mem_cons, not_or] at this
          exact this.2

/-- Every survivor of `dedupSeen` is the first record with its id in the
input list. -/
theorem dedupSeen_find :
    ∀ (l : List Video) (seen : List String) (r : Video), r ∈ dedupSeen l seen →
      l.find? (fun x => x.video_id == r.video_id) = some r := by
  intro l
  induction l with
  | nil => intro seen r hr; simp [dedupSeen] at hr
  | cons x rest ih =>
    intro seen r hr
    by_cases hx : x.video_id ∈ seen
    · simp only [dedupSeen, hx, if_true] at hr
      have hne : x.video_id ≠ r.video_id := by
        intro he
        exact (dedupSeen_nodup rest seen).2 r hr (he ▸ hx)
      rw [List.find?_cons_of_neg _ (by simpa using hne)]
      exact ih seen r hr
    · simp only [dedupSeen, hx, if_false, List.mem_cons] at hr
      rcases hr with rfl | hr
      · rw [List.find?_cons_of_pos _ (by simp)]
      · have hnot := (dedupSeen_nodup rest (x.video_id :: seen)).2 r hr
        simp only [List.mem_cons, not_or] at hnot
        rw [List.find?_cons_of_neg _ (by simpa using fun h => hnot.1 h.symm)]
        exact ih _ r hr

/-- C2: `normalizeVideos` never outputs two records with the same id; items
whose id or url cannot be resolved contribute nothing (an output id always
comes from `extractVideoId` on some input item, never synthesised); among
items sharing an id the first resolvable occurrence is the one kept. -/
theorem c2_normalize_unique (videos : List RawVideo) (username : String) :
    ((normalizeVideos videos username).map (·.video_id)).Nodup
    ∧ normalizeVideos videos username =
        dedupSeen (videos.filterMap (toCanonical username)) []
    ∧ (∀ r ∈ normalizeVideos videos username,
        ∃ v ∈ videos, extractVideoId v = some r.video_id
          ∧ toCanonical username v = some r)
    ∧ (∀ r ∈ normalizeVideos videos username,
        (videos.filterMap (toCanonical username)).find?
          (fun x => x.video_id == r.video_id) = some r) := by
  have heq := normalizeGo_eq_dedupSeen username videos []
  have hmemsub : ∀ r ∈ normalizeVideos videos username,
      r ∈ videos.filterMap (toCanonical username) := by
    intro r hr
    rw [normalizeVideos, heq] at hr
    have hfind := dedupSeen_find _ [] r hr
    exact List.mem_of_find?_eq_some hfind
  refine ⟨?_, heq, ?_, ?_⟩
  · rw [normalizeVideos, heq]
    exact (dedupSeen_nodup _ []).1
  · intro r hr
    obtain ⟨v, hv, hcv⟩ := List.mem_filterMap.mp (hmemsub r hr)
    refine ⟨v, hv, ?_, hcv⟩
    unfold toCanonical at hcv
    cases h1 : extractVideoId v with
    | none => rw [h1] at hcv; simp at hcv
    | some vid =>
      rw [h1] at hcv
      cases h2 : resolveVideoUrl v username (extractVideoId v) with
      | none => rw [h1] at h2; rw [h2] at hcv; simp at hcv
      | some url =>
        rw [h1] at h2
        rw [h2] at hcv
        simp only [Option.some.injEq] at hcv
        rw [← hcv]
        rfl
  · intro r hr
    rw [normalizeVideos, heq] at hr
    exact dedupSeen_find _ [] r hr

/-- Two raw items sharing the id `42`, the second with no URL fields. -/
def c2wVids : List RawVideo :=
  [ { id := some (.str "42"), videoUrl := some (.str "https://www.tiktok.com/@u/video/42") },
    { id := some (.str "42") } ]

/-- Witness for `c2_normalize_unique` at a concrete duplicate-id input. -/
theorem c2_normalize_unique_witness :
    ((normalizeVideos c2wVids ("u")).map (·.video_id)).Nodup
    ∧ (∀ r ∈ normalizeVideos c2wVids ("u"),
        ∃ v ∈ c2wVids, extractVideoId v = some r.video_id
          ∧ toCanonical ("u") v = some r) :=
  ⟨(c2_normalize_unique c2wVids ("u")).1,
   (c2_normalize_unique c2wVids ("u")).2.2.1⟩

/-! ### C3 — unknown values stay null (with the negative-metric clamp) -/

/-- Counterexample to C3 as stated: the metric value `"-5"` parses to the
negative integer `-5`, yet `sanitizeStat` clamps it to `0` instead of
returning `null`. -/
theorem c3_negative_metric_clamped :
    parseIntJs (JsPrim.str "-5") = some (-5)
    ∧ sanitizeStat (some (JsPrim.str "-5")) = some 0
    ∧ sanitizeStat (some (JsPrim.str "-5")) ≠ none := by
  refine ⟨?_, ?_, ?_⟩ <;> decide

/-- C3 (amended): metric values that are absent or do not parse become
`null` (never `0`), while a value parsing to a negative integer is clamped
to `0`; a record with no recoverable timestamp candidate gets a `null`
`postedAtEpoch` (never the current time); an unknown text field is `null`,
never the empty string. -/
theorem c3_null_fields :
    sanitizeStat none = none
    ∧ (∀ p, parseIntJs p = none → sanitizeStat (some p) = none)
    ∧ (∀ p n, parseIntJs p = some n → sanitizeStat (some p) = some (max n 0))
    ∧ (∀ p n, parseIntJs p = some n → n < 0 → sanitizeStat (some p) = some 0)
    ∧ (∀ v : RawVideo, (∀ c ∈ epochCandidates v, epochCandidate c = none) →
        extractEpochTime v = none)
    ∧ (∀ v : RawVideo, ∀ s, extractDescription v = some s → s ≠ "")
    ∧ (∀ v : RawVideo, v.desc = none → v.description = none → v.title = none →
        extractDescription v = none) := by
  refine ⟨rfl, ?_, ?_, ?_, ?_, ?_, ?_⟩
  · intro p hp
    simp [sanitizeStat, hp]
  · intro p n hp
    simp [sanitizeStat, hp]
  · intro p n hp hn
    simp only [sanitizeStat, hp, Option.some.injEq]
    omega
  · intro v h
    simp only [epochCandidates, List.mem_cons, List.not_mem_nil, or_false] at h
    simp only [extractEpochTime, epochCandidates, List.findSome?]
    rw [h _ (Or.inl rfl), h _ (Or.inr (Or.inl rfl)), h _ (Or.inr (Or.inr (Or.inl rfl))),
      h _ (Or.inr (Or.inr (Or.inr (Or.inl rfl)))),
      h _ (Or.inr (Or.inr (Or.inr (Or.inr (Or.inl rfl))))),
      h _ (Or.inr (Or.inr (Or.inr (Or.inr (Or.inr rfl)))))]
  · intro v s h
    unfold extractDescription at h
    cases hval : v.desc.orElse fun _ => v.description.orElse fun _ => v.title with
    | none => rw [hval] at h; exact absurd h (by simp)
    | some p =>
      rw [hval] at h
      cases p with
      | num n => exact absurd h (by simp)
      | str str =>
        simp only at h
        split at h
        · exact absurd h (by simp)
        · next hne =>
          intro hs
          apply hne
          have hse : jsTrim str = s := (Option.some.injEq _ _).mp h
          rw [hse, hs]
          rfl
  · intro v h1 h2 h3
    unfold extractDescription
    simp [h1, h2, h3]

/-- Witness for `c3_null_fields` at concrete unparsable, negative and
absent values. -/
theorem c3_null_fields_witness :
    sanitizeStat (some (JsPrim.str "abc")) = none
    ∧ sanitizeStat (some (JsPrim.num (-7))) = some 0
    ∧ ("hi" : String) ≠ "" := by
  refine ⟨c3_null_fields.2.1 (JsPrim.str "abc") (by decide),
    c3_null_fields.2.2.2.1 (JsPrim.num (-7)) (-7) (by decide) (by decide),
    c3_null_fields.2.2.2.2.2.1 { desc := some (.str " hi ") } ("hi") (by decide)⟩

/-! ### Rate limiter embedding (C4, C9, C10) -/

/-- One configured window: `{ windowMs, limit }` (the `label` is only used
for header names). -/
structure RateRule where
  windowMs : Nat
  limit : Nat
deriving DecidableEq

/-- One per-client, per-window bucket: `{ count, resetTime }` in
milliseconds. -/
structure RateBucket where
  count : Nat
  resetTime : Nat
deriving DecidableEq

/-- One iteration of the `RATE_LIMIT_RULES.forEach` body: default the
missing bucket, lazily reset a window whose `resetTime` has passed, then
increment. -/
def stepBucket (rule : RateRule) (now : Nat) (prev : Option RateBucket) : RateBucket :=
  let previousReset := match prev with
    | some b => b.resetTime
    | none => now + rule.windowMs
  let previousCount := match prev with
    | some b => b.count
    | none => 0
  if previousReset ≤ now then
    { count := 0 + 1, resetTime := now + rule.windowMs }
  else
    { count := previousCount + 1, resetTime := previousReset }

/-- `count > rule.limit` after the increment: this window is exceeded. -/
def bucketExceeded (rule : RateRule) (b : RateBucket) : Bool :=
  decide (rule.limit < b.count)

/-- `Math.ceil((resetTime - now) / 1000)` (non-negative here since an
exceeded window never took the reset branch). -/
def bucketRetryAfter (now : Nat) (b : RateBucket) : Nat :=
  (b.resetTime - now + 999) / 1000

/-- `existing[index]` for the current index: the head of the remaining
stored-bucket list, `undefined` when the array is exhausted. -/
def headOpt (st : List (Option RateBucket)) : Option RateBucket :=
  match st with
  | [] => none
  | o :: _ => o

/-- The `forEach` over the configured rules, indexing into the stored
bucket array (`existing[index]`, possibly missing): yields the updated
buckets, the `limited` flag, and the running `Math.max` of retry-after
seconds over exceeded windows. -/
def enforceGo (now : Nat) : List RateRule → List (Option RateBucket) →
    List RateBucket × Bool × Nat
  | [], _ => ([], false, 0)
  | rule :: rs, st =>
    let b := stepBucket rule now (headOpt st)
    let rest := enforceGo now rs (st.drop 1)
    (b :: rest.1,
     rest.2.1 || bucketExceeded rule b,
     if bucketExceeded rule b then max rest.2.2 (bucketRetryAfter now b) else rest.2.2)

/-- `enforceRateLimit` for one client: read the stored bucket array
(`?? []`), update every window. -/
def rateCheck (rules : List RateRule) (now : Nat) (st : Option (List RateBucket)) :
    List RateBucket × Bool × Nat :=
  enforceGo now rules (match st with
    | none => []
    | some bs => bs.map some)

/-- A sequence of checks for one client at the given times, starting from
the given stored state; returns `(limited, retryAfterSeconds)` per call. -/
def runChecks (rules : List RateRule) : List Nat → Option (List RateBucket) →
    List (Bool × Nat)
  | [], _ => []
  | t :: ts, st =>
    let res := rateCheck rules t st
    (res.2.1, res.2.2) :: runChecks rules ts (some res.1)

/-- The waits of the exceeded windows, in rule order (specification-side
reading of the `Math.max` accumulation). -/
def exceededWaits (now : Nat) : List RateRule → List (Option RateBucket) → List Nat
  | [], _ => []
  | rule :: rs, st =>
    let b := stepBucket rule now (headOpt st)
    let rest := exceededWaits now rs (st.drop 1)
    if bucketExceeded rule b then bucketRetryAfter now b :: rest else rest


/-! ### C4 — rate limiter -/

/-- After a step the window's `resetTime` is strictly in the future (either
it survived as a not-yet-passed reset point, or it was just recomputed as
`now + windowMs`). -/
theorem stepBucket_resetTime_gt (rule : RateRule) (now : Nat) (prev : Option RateBucket)
    (hw : 1 ≤ rule.windowMs) : now < (stepBucket rule now prev).resetTime := by
  unfold stepBucket
  cases prev <;> dsimp only [] <;> split <;> dsimp only [] <;> omega

/-- A wait computed against a future reset point is at least one second. -/
theorem bucketRetryAfter_pos (now : Nat) (b : RateBucket) (h : now < b.resetTime) :
    1 ≤ bucketRetryAfter now b := by
  unfold bucketRetryAfter
  omega

/-- `enforceRateLimit`'s `limited`/`retryAfterSeconds` pair against the
list of waits of exceeded windows: denied iff some window is exceeded, the
reported wait bounds every exceeded window's wait, is itself one of them,
and is positive; no denial means wait `0`. -/
theorem enforceGo_max (now : Nat) :
    ∀ (rules : List RateRule) (st : List (Option RateBucket)),
      (∀ r ∈ rules, 1 ≤ r.windowMs) →
      ((enforceGo now rules st).2.1 = true ↔ exceededWaits now rules st ≠ [])
      ∧ (∀ x ∈ exceededWaits now rules st, x ≤ (enforceGo now rules st).2.2)
      ∧ ((enforceGo now rules st).2.1 = true →
          (enforceGo now rules st).2.2 ∈ exceededWaits now rules st
          ∧ 1 ≤ (enforceGo now rules st).2.2)
      ∧ ((enforceGo now rules st).2.1 = false → (enforceGo now rules st).2.2 = 0) := by
  intro rules
  induction rules with
  | nil =>
    intro st _
    simp [enforceGo, exceededWaits]
  | cons rule rs ih =>
    intro st hw
    have hwr : 1 ≤ rule.windowMs := hw rule (List.mem_cons_self _ _)
    have ihs := ih (st.drop 1) (fun r hr => hw r (List.mem_cons_of_mem _ hr))
    have hwait : 1 ≤ bucketRetryAfter now (stepBucket rule now (headOpt st)) :=
      bucketRetryAfter_pos now _ (stepBucket_resetTime_gt rule now _ hwr)
    cases hexc : bucketExceeded rule (stepBucket rule now (headOpt st)) with
    | true =>
      refine ⟨?_, ?_, ?_, ?_⟩
      · simp [enforceGo, exceededWaits, hexc]
      · intro x hx
        simp only [exceededWaits, hexc, if_true, List.mem_cons] at hx
        simp only [enforceGo, hexc, if_true]
        rcases hx with rfl | hx
        · exact le_max_right _ _
        · exact le_trans (ihs.2.1 x hx) (le_max_left _ _)
      · intro _
        simp only [enforceGo, hexc, if_true, exceededWaits, List.mem_cons]
        constructor
        · rcases le_total (enforceGo now rs (st.drop 1)).2.2
            (bucketRetryAfter now (stepBucket rule now (headOpt st))) with hle | hle
          · left
            exact max_eq_right hle
          · cases hlim : (enforceGo now rs (st.drop 1)).2.1 with
            | true =>
              right
              rw [max_eq_left hle]
              exact (ihs.2.2.1 hlim).1
            | false =>
              left
              rw [ihs.2.2.2 hlim]
              simp
        · exact le_trans hwait (le_max_right _ _)
      · intro h
        simp [enforceGo, hexc] at h
    | false =>
      have h1 : (enforceGo now (rule :: rs) st).2.1 = (enforceGo now rs (st.drop 1)).2.1 := by
        simp [enforceGo, hexc]
      have h2 : (enforceGo now (rule :: rs) st).2.2 = (enforceGo now rs (st.drop 1)).2.2 := by
        simp [enforceGo, hexc]
      have h3 : exceededWaits now (rule :: rs) st = exceededWaits now rs (st.drop 1) := by
        simp [exceededWaits, hexc]
      rw [h1, h2, h3]
      exact ihs

/-- Expected per-call output of repeated checks against a single window
that never resets: the `i`-th call sees count `k + i + 1`. -/
def seqOuts (lim resetAt : Nat) : List Nat → Nat → List (Bool × Nat)
  | [], _ => []
  | t :: ts, k =>
    (decide (lim < k + 1), if lim < k + 1 then (resetAt - t + 999) / 1000 else 0) ::
      seqOuts lim resetAt ts (k + 1)

/-- With one configured window and every call before the stored reset
point, each check simply increments the count. -/
theorem runChecks_single (w lim : Nat) :
    ∀ (ts : List Nat) (k resetAt : Nat), (∀ t ∈ ts, t < resetAt) →
      runChecks [⟨w, lim⟩] ts (some [⟨k, resetAt⟩]) = seqOuts lim resetAt ts k := by
  intro ts
  induction ts with
  | nil => intro k resetAt _; rfl
  | cons t ts' ih =>
    intro k resetAt hin
    have ht : ¬ resetAt ≤ t := not_le.mpr (hin t (List.mem_cons_self _ _))
    have hstep : rateCheck [⟨w, lim⟩] t (some [⟨k, resetAt⟩]) =
        ([⟨k + 1, resetAt⟩], decide (lim < k + 1),
         if lim < k + 1 then (resetAt - t + 999) / 1000 else 0) := by
      simp only [rateCheck, List.map_cons, List.map_nil, enforceGo, headOpt, stepBucket,
        List.drop_succ_cons, List.drop_nil, bucketExceeded, bucketRetryAfter, if_neg ht]
      split
      · simp_all
      · next hno =>
        simp only [Bool.false_or]
        rw [if_neg (by simpa using hno)]
    simp only [runChecks, hstep, seqOuts]
    exact congrArg _ (ih (k + 1) resetAt (fun x hx => hin x (List.mem_cons_of_mem _ hx)))

/-- Outputs of a never-resetting run are all `(false, 0)` while the count
stays within the limit. -/
theorem seqOuts_take (lim resetAt : Nat) :
    ∀ (ts : List Nat) (k m : Nat), k + m ≤ lim →
      ∀ o ∈ (seqOuts lim resetAt ts k).take m, o = (false, 0) := by
  intro ts
  induction ts with
  | nil => intro k m _ o ho; simp [seqOuts] at ho
  | cons t ts' ih =>
    intro k m hm o ho
    cases m with
    | zero => simp at ho
    | succ m' =>
      simp only [seqOuts, List.take_succ_cons, List.mem_cons] at ho
      rcases ho with rfl | ho
      · have : ¬ lim < k + 1 := by omega
        simp [this]
      · exact ih (k + 1) m' (by omega) o ho

/-- The last output of a never-resetting run sees count
`k + length`. -/
theorem seqOuts_getLast (lim resetAt : Nat) :
    ∀ (ts : List Nat) (k tl : Nat), ts.getLast? = some tl →
      (seqOuts lim resetAt ts k).getLast? =
        some (decide (lim < k + ts.length),
          if lim < k + ts.length then (resetAt - tl + 999) / 1000 else 0) := by
  intro ts
  induction ts with
  | nil => intro k tl h; simp at h
  | cons t ts' ih =>
    intro k tl h
    cases ts' with
    | nil =>
      simp only [List.getLast?_singleton, Option.some.injEq] at h
      subst h
      simp [seqOuts]
    | cons t2 ts'' =>
      rw [List.getLast?_cons_cons] at h
      have hih := ih (k + 1) tl h
      have hlen : k + 1 + (t2 :: ts'').length = k + (t :: t2 :: ts'').length := by
        simp only [List.length_cons]
        omega
      have hexp : seqOuts lim resetAt (t :: t2 :: ts'') k =
          (decide (lim < k + 1), if lim < k + 1 then (resetAt - t + 999) / 1000 else 0) ::
            seqOuts lim resetAt (t2 :: ts'') (k + 1) := rfl
      rw [hexp, List.getLast?_cons, hih, Option.getD_some, hlen]

/-- C4: for one configured window with limit `lim ≥ 1` and width `w ≥ 1`,
`lim + 1` checks inside one window interval are allowed exactly `lim` times
and the last is denied with a positive `retryAfterSeconds`; a check at or
after `resetTime` lazily resets the counter (count restarts at `1` with a
fresh reset point and the check is allowed); and over arbitrary configured
windows, denial happens iff some window is exceeded, with
`retryAfterSeconds` the maximum wait over the exceeded windows and
positive. -/
theorem c4_rate_limiter (w lim t₁ : Nat) (rest : List Nat)
    (hw : 1 ≤ w) (hL : 1 ≤ lim) (hlen : rest.length = lim)
    (hin : ∀ t ∈ rest, t₁ ≤ t ∧ t < t₁ + w) :
    (∀ o ∈ (runChecks [⟨w, lim⟩] (t₁ :: rest) none).take lim, o = (false, 0))
    ∧ (∀ tl, rest.getLast? = some tl →
        (runChecks [⟨w, lim⟩] (t₁ :: rest) none).getLast? =
          some (true, (t₁ + w - tl + 999) / 1000)
        ∧ 1 ≤ (t₁ + w - tl + 999) / 1000)
    ∧ (∀ (k resetAt now : Nat), resetAt ≤ now →
        rateCheck [⟨w, lim⟩] now (some [⟨k, resetAt⟩]) = ([⟨1, now + w⟩], false, 0))
    ∧ (∀ (rules : List RateRule) (now : Nat) (st : List (Option RateBucket)),
        (∀ r ∈ rules, 1 ≤ r.windowMs) →
        ((enforceGo now rules st).2.1 = true ↔ exceededWaits now rules st ≠ [])
        ∧ (∀ x ∈ exceededWaits now rules st, x ≤ (enforceGo now rules st).2.2)
        ∧ ((enforceGo now rules st).2.1 = true →
            (enforceGo now rules st).2.2 ∈ exceededWaits now rules st
            ∧ 1 ≤ (enforceGo now rules st).2.2)) := by
  have hfirst : rateCheck [⟨w, lim⟩] t₁ none = ([⟨1, t₁ + w⟩], false, 0) := by
    simp only [rateCheck, enforceGo, headOpt, List.drop_nil, stepBucket]
    rw [if_neg (by omega)]
    simp only [bucketExceeded, Nat.zero_add]
    have hno : ¬ lim < 1 := by omega
    simp [hno]
  have hrun : runChecks [⟨w, lim⟩] (t₁ :: rest) none =
      (false, 0) :: seqOuts lim (t₁ + w) rest 1 := by
    simp only [runChecks, hfirst]
    exact congrArg _ (runChecks_single w lim rest 1 (t₁ + w) (fun t ht => (hin t ht).2))
  refine ⟨?_, ?_, ?_, ?_⟩
  · intro o ho
    rw [hrun] at ho
    obtain ⟨lm, rfl⟩ : ∃ lm, lim = lm + 1 := ⟨lim - 1, by omega⟩
    rw [List.take_succ_cons, List.mem_cons] at ho
    rcases ho with rfl | ho
    · rfl
    · exact seqOuts_take (lm + 1) (t₁ + w) rest 1 lm (by omega) o ho
  · intro tl htl
    have hmem := List.mem_of_getLast?_eq_some htl
    have hlt : tl < t₁ + w := (hin tl hmem).2
    have hlast := seqOuts_getLast lim (t₁ + w) rest 1 tl htl
    have hlim1 : lim < 1 + rest.length := by omega
    constructor
    · rw [hrun, List.getLast?_cons, hlast, Option.getD_some, if_pos hlim1]
      simp [hlim1]
    · omega
  · intro k resetAt now hre
    simp only [rateCheck, List.map_cons, List.map_nil, enforceGo, headOpt,
      List.drop_succ_cons, List.drop_nil, stepBucket]
    rw [if_pos hre]
    simp only [bucketExceeded, Nat.zero_add]
    have hno : ¬ lim < 1 := by omega
    simp [hno]
  · intro rules now st hwr
    have h := enforceGo_max now rules st hwr
    exact ⟨h.1, h.2.1, h.2.2.1⟩

/-- Witness for `c4_rate_limiter`: window `60000` ms, limit `2`, calls at
`0`, `10`, `20` ms; plus a lazy reset observed at `70000` ms. -/
theorem c4_rate_limiter_witness :
    (runChecks [⟨60000, 2⟩] [0, 10, 20] none).getLast? =
      some (true, (0 + 60000 - 20 + 999) / 1000)
    ∧ 1 ≤ (0 + 60000 - 20 + 999) / 1000
    ∧ rateCheck [⟨60000, 2⟩] 70000 (some [⟨2, 60000⟩]) = ([⟨1, 130000⟩], false, 0) := by
  have h := c4_rate_limiter 60000 2 0 [10, 20] (by norm_num) (by norm_num) rfl (by decide)
  have h2 := h.2.1 20 rfl
  exact ⟨h2.1, h2.2, h.2.2.1 2 60000 70000 (by norm_num)⟩

/-! ### Response cache embedding (C5) -/

/-- `CACHE_TTL`/`CACHE_MAX_ENTRIES` derived configuration (milliseconds /
entry count). -/
structure CacheConfig where
  ttlMs : Nat
  maxEntries : Nat
deriving DecidableEq

/-- `CACHE_ENABLED = CACHE_TTL_MS > 0 && CACHE_MAX_ENTRIES > 0`. -/
def cacheEnabled (cfg : CacheConfig) : Bool :=
  decide (0 < cfg.ttlMs) && decide (0 < cfg.maxEntries)

/-- A JSON-serializable response payload, modelled as one structured value
held in a single heap cell (mutating an object through one reference
changes what every alias of that reference sees). -/
abbrev Payload := List (String × Int)

/-- The mutable world: a heap of payload objects, a fresh-address counter,
and the `responseCache` `Map` in insertion order, each entry
`(key, payload reference, expiresAt)`. -/
structure CacheState where
  heap : Nat → Payload
  nextAddr : Nat
  entries : List (String × Nat × Nat)

/-- `Map.prototype.get`. -/
def mapGet (entries : List (String × Nat × Nat)) (k : String) : Option (Nat × Nat) :=
  match entries with
  | [] => none
  | (k', v) :: rest => if k' = k then some v else mapGet rest k

/-- `Map.prototype.set`: replace in place, else append (insertion order
preserved). -/
def mapSet (entries : List (String × Nat × Nat)) (k : String) (v : Nat × Nat) :
    List (String × Nat × Nat) :=
  match entries with
  | [] => [(k, v)]
  | (k', v') :: rest => if k' = k then (k, v) :: rest else (k', v') :: mapSet rest k v

/-- `Map.prototype.delete`. -/
def mapDelete (entries : List (String × Nat × Nat)) (k : String) :
    List (String × Nat × Nat) :=
  match entries with
  | [] => []
  | (k', v') :: rest => if k' = k then rest else (k', v') :: mapDelete rest k

/-- `clonePayload` (`structuredClone`/JSON round-trip): allocate a fresh
object with the same value; returns the fresh reference. -/
def clonePayloadAt (s : CacheState) (a : Nat) : Nat × CacheState :=
  (s.nextAddr,
   { heap := fun x => if x = s.nextAddr then s.heap a else s.heap x
     nextAddr := s.nextAddr + 1
     entries := s.entries })

/-- Mutation of the object behind one reference. -/
def writeHeap (s : CacheState) (a : Nat) (p : Payload) : CacheState :=
  { s with heap := fun x => if x = a then p else s.heap x }

/-- The eviction step of `storeCachedResponse`: when at capacity, delete
the oldest-inserted key (skipped when that key is the falsy empty
string). -/
def evictOldest (cfg : CacheConfig) (s : CacheState) : CacheState :=
  if cfg.maxEntries ≤ s.entries.length then
    match s.entries with
    | [] => s
    | (k₀, _) :: _ =>
      if k₀ = "" then s else { s with entries := mapDelete s.entries k₀ }
  else s

/-- `storeCachedResponse(cacheKey, payload)`: no-op when the cache is
disabled; evict when at capacity; store a clone of the caller's payload
with `expiresAt = now + ttl`. -/
def storeCachedResponse (cfg : CacheConfig) (now : Nat) (k : String)
    (payloadAddr : Nat) (s : CacheState) : CacheState :=
  if cacheEnabled cfg then
    let s₁ := evictOldest cfg s
    let res := clonePayloadAt s₁ payloadAddr
    { res.2 with entries := mapSet res.2.entries k (res.1, now + cfg.ttlMs) }
  else s

/-- `getCachedResponse(cacheKey)`: miss when disabled or absent; delete and
miss when expired; otherwise return a fresh clone of the stored payload
plus the remaining seconds. -/
def getCachedResponse (cfg : CacheConfig) (now : Nat) (k : String) (s : CacheState) :
    Option (Nat × Nat) × CacheState :=
  if cacheEnabled cfg then
    match mapGet s.entries k with
    | none => (none, s)
    | some (a, exp) =>
      if exp ≤ now then (none, { s with entries := mapDelete s.entries k })
      else
        let res := clonePayloadAt s a
        (some (res.1, (exp - now) / 1000), res.2)
  else (none, s)

/-! ### C5 — cache round trip without aliasing -/

/-- After `Map.set`, `Map.get` of that key yields the stored value. -/
theorem mapGet_mapSet (k : String) (v : Nat × Nat) :
    ∀ entries, mapGet (mapSet entries k v) k = some v := by
  intro entries
  induction entries with
  | nil => simp [mapGet, mapSet]
  | cons e rest ih =>
    obtain ⟨k', v'⟩ := e
    by_cases h : k' = k
    · simp [mapSet, mapGet, h]
    · simp [mapSet, mapGet, h, ih]

/-- Eviction only touches the map, never the heap or the allocator. -/
theorem evictOldest_nextAddr (cfg : CacheConfig) (s : CacheState) :
    (evictOldest cfg s).nextAddr = s.nextAddr := by
  unfold evictOldest
  split
  · split
    · rfl
    · split <;> rfl
  · rfl

theorem evictOldest_heap (cfg : CacheConfig) (s : CacheState) :
    (evictOldest cfg s).heap = s.heap := by
  unfold evictOldest
  split
  · split
    · rfl
    · split <;> rfl
  · rfl

/-- What one store does to the world: the fresh-address counter advances,
the heap gains a copy of the caller's payload at the old fresh address, and
the map binds the key to that internal copy. -/
theorem store_spec (cfg : CacheConfig) (now : Nat) (k : String) (a : Nat)
    (s : CacheState) (hen : cacheEnabled cfg = true) :
    (storeCachedResponse cfg now k a s).nextAddr = s.nextAddr + 1
    ∧ (∀ x, (storeCachedResponse cfg now k a s).heap x =
        if x = s.nextAddr then s.heap a else s.heap x)
    ∧ mapGet (storeCachedResponse cfg now k a s).entries k =
        some (s.nextAddr, now + cfg.ttlMs) := by
  unfold storeCachedResponse
  rw [if_pos hen]
  refine ⟨?_, ?_, ?_⟩
  · show (evictOldest cfg s).nextAddr + 1 = s.nextAddr + 1
    rw [evictOldest_nextAddr]
  · intro x
    show (if x = (evictOldest cfg s).nextAddr then (evictOldest cfg s).heap a
      else (evictOldest cfg s).heap x) = _
    rw [evictOldest_nextAddr, evictOldest_heap]
  · show mapGet (mapSet (evictOldest cfg s).entries k
      ((evictOldest cfg s).nextAddr, now + cfg.ttlMs)) k = _
    rw [mapGet_mapSet, evictOldest_nextAddr]

/-- What one live read does: a hit with the remaining seconds, returning a
fresh copy of the stored object; the map is untouched. -/
theorem get_spec (cfg : CacheConfig) (t : Nat) (k : String) (s : CacheState)
    (addr : Nat) (exp : Nat) (hen : cacheEnabled cfg = true)
    (hfound : mapGet s.entries k = some (addr, exp)) (hlive : t < exp) :
    (getCachedResponse cfg t k s).1 = some (s.nextAddr, (exp - t) / 1000)
    ∧ (getCachedResponse cfg t k s).2.heap s.nextAddr = s.heap addr
    ∧ (∀ x, x ≠ s.nextAddr → (getCachedResponse cfg t k s).2.heap x = s.heap x)
    ∧ (getCachedResponse cfg t k s).2.nextAddr = s.nextAddr + 1
    ∧ (getCachedResponse cfg t k s).2.entries = s.entries := by
  unfold getCachedResponse
  rw [if_pos hen, hfound]
  dsimp only
  rw [if_neg (not_le.mpr hlive)]
  refine ⟨rfl, by simp [clonePayloadAt], ?_, rfl, rfl⟩
  intro x hx
  simp [clonePayloadAt, hx]

/-- C5: storing a payload and reading the key back before expiry yields a
deep-equal copy behind a fresh reference, aliased neither to the caller's
object nor to the cache's internal copy; mutating the caller's object after
the put, or mutating the object a get returned, never changes what a later
get of that key returns. -/
theorem c5_cache_round_trip (cfg : CacheConfig) (s : CacheState) (k : String)
    (a : Nat) (now t₁ t₂ : Nat) (q₁ q₂ : Payload)
    (hen : cacheEnabled cfg = true) (ha : a < s.nextAddr)
    (h₁ : t₁ < now + cfg.ttlMs) (h₂ : t₂ < now + cfg.ttlMs) :
    s.nextAddr ≠ a
    ∧ (storeCachedResponse cfg now k a s).heap s.nextAddr = s.heap a
    ∧ (getCachedResponse cfg t₁ k (storeCachedResponse cfg now k a s)).1 =
        some ((storeCachedResponse cfg now k a s).nextAddr,
          (now + cfg.ttlMs - t₁) / 1000)
    ∧ (storeCachedResponse cfg now k a s).nextAddr ≠ a
    ∧ (getCachedResponse cfg t₁ k (storeCachedResponse cfg now k a s)).2.heap
        (storeCachedResponse cfg now k a s).nextAddr = s.heap a
    ∧ (getCachedResponse cfg t₁ k
        (writeHeap (storeCachedResponse cfg now k a s) a q₁)).1 =
        some ((storeCachedResponse cfg now k a s).nextAddr,
          (now + cfg.ttlMs - t₁) / 1000)
    ∧ (getCachedResponse cfg t₁ k
        (writeHeap (storeCachedResponse cfg now k a s) a q₁)).2.heap
        (storeCachedResponse cfg now k a s).nextAddr = s.heap a
    ∧ (getCachedResponse cfg t₂ k
        (writeHeap (getCachedResponse cfg t₁ k (storeCachedResponse cfg now k a s)).2
          (storeCachedResponse cfg now k a s).nextAddr q₂)).1 =
        some ((getCachedResponse cfg t₁ k
          (storeCachedResponse cfg now k a s)).2.nextAddr,
          (now + cfg.ttlMs - t₂) / 1000)
    ∧ (getCachedResponse cfg t₂ k
        (writeHeap (getCachedResponse cfg t₁ k (storeCachedResponse cfg now k a s)).2
          (storeCachedResponse cfg now k a s).nextAddr q₂)).2.heap
        ((getCachedResponse cfg t₁ k
          (storeCachedResponse cfg now k a s)).2.nextAddr) = s.heap a := by
  obtain ⟨hna, hh, hm⟩ := store_spec cfg now k a s hen
  have hne : s.nextAddr ≠ a := by omega
  have h1heap : (storeCachedResponse cfg now k a s).heap s.nextAddr = s.heap a := by
    rw [hh]
    simp
  obtain ⟨g1, g2, g3, g4, g5⟩ :=
    get_spec cfg t₁ k (storeCachedResponse cfg now k a s) s.nextAddr
      (now + cfg.ttlMs) hen hm h₁
  have hna2 : (storeCachedResponse cfg now k a s).nextAddr ≠ a := by omega
  -- the mutated-caller state shares entries/allocator with the stored state
  have hmw : mapGet (writeHeap (storeCachedResponse cfg now k a s) a q₁).entries k =
      some (s.nextAddr, now + cfg.ttlMs) := hm
  obtain ⟨w1, w2, w3, w4, w5⟩ :=
    get_spec cfg t₁ k (writeHeap (storeCachedResponse cfg now k a s) a q₁)
      s.nextAddr (now + cfg.ttlMs) hen hmw h₁
  -- the state after mutating the returned copy
  have hmg : mapGet (writeHeap
      (getCachedResponse cfg t₁ k (storeCachedResponse cfg now k a s)).2
      (storeCachedResponse cfg now k a s).nextAddr q₂).entries k =
      some (s.nextAddr, now + cfg.ttlMs) := by
    show mapGet (getCachedResponse cfg t₁ k
      (storeCachedResponse cfg now k a s)).2.entries k = _
    rw [g5]
    exact hm
  obtain ⟨u1, u2, u3, u4, u5⟩ :=
    get_spec cfg t₂ k (writeHeap
      (getCachedResponse cfg t₁ k (storeCachedResponse cfg now k a s)).2
      (storeCachedResponse cfg now k a s).nextAddr q₂)
      s.nextAddr (now + cfg.ttlMs) hen hmg h₂
  have hwn : ∀ (st : CacheState) (x : Nat) (p : Payload),
      (writeHeap st x p).nextAddr = st.nextAddr := fun _ _ _ => rfl
  have hwh : ∀ (st : CacheState) (x y : Nat) (p : Payload),
      (writeHeap st x p).heap y = if y = x then p else st.heap y := fun _ _ _ _ => rfl
  simp only [hwn] at w1 w2 u1 u2
  refine ⟨hne, h1heap, ?_, hna2, ?_, ?_, ?_, ?_, ?_⟩
  · rw [g1]
  · rw [g2, h1heap]
  · rw [w1]
  · rw [w2, hwh, if_neg hne, h1heap]
  · rw [u1]
  · rw [u2, hwh, if_neg (by omega), g3 s.nextAddr (by omega), h1heap]

/-- A one-object world for the cache witness. -/
def c5wState : CacheState :=
  { heap := fun x => if x = 0 then [("views", 10)] else []
    nextAddr := 1
    entries := [] }

/-- Witness for `c5_cache_round_trip`: store at time 0 with a 120 s TTL,
read back at 5 ms, mutate the returned copy, read again at 6 ms. -/
theorem c5_cache_round_trip_witness :
    (getCachedResponse ⟨120000, 100⟩ 5 ("k")
        (storeCachedResponse ⟨120000, 100⟩ 0 ("k") 0 c5wState)).2.heap
      (storeCachedResponse ⟨120000, 100⟩ 0 ("k") 0 c5wState).nextAddr =
      c5wState.heap 0
    ∧ (getCachedResponse ⟨120000, 100⟩ 6 ("k")
        (writeHeap (getCachedResponse ⟨120000, 100⟩ 5 ("k")
            (storeCachedResponse ⟨120000, 100⟩ 0 ("k") 0 c5wState)).2
          (storeCachedResponse ⟨120000, 100⟩ 0 ("k") 0 c5wState).nextAddr
          [("views", 99)])).2.heap
        ((getCachedResponse ⟨120000, 100⟩ 5 ("k")
          (storeCachedResponse ⟨120000, 100⟩ 0 ("k") 0 c5wState)).2.nextAddr) =
      c5wState.heap 0 := by
  have h := c5_cache_round_trip ⟨120000, 100⟩ c5wState ("k") 0 0 5 6
    [("views", 99)] [("views", 99)] (by decide) (by decide) (by decide) (by decide)
  exact ⟨h.2.2.2.2.1, h.2.2.2.2.2.2.2.2⟩

/-! ### Lightweight fetch embedding (C6, C7) -/

/-- What one network attempt produces: an HTTP response with a status, or a
network-level error/timeout (abort). -/
inductive AttemptOutcome where
  | resp (status : Nat)
  | netErr
deriving DecidableEq

/-- Observable behaviour of one `fetchWithRetry` call: the returned status
(`none` when the last error was re-thrown), the number of attempts
performed, and the backoff delays slept between attempts. -/
structure FetchTrace where
  result : Option Nat
  attemptsMade : Nat
  delays : List Nat
deriving DecidableEq

/-- The default `retryOn` set: `[429, 500, 502, 503, 504]`. -/
def transientCodes : List Nat := [429, 500, 502, 503, 504]

/-- An outcome the loop retries on: a transient status or a network
error. -/
def isRetryable (retryOn : List Nat) (o : AttemptOutcome) : Prop :=
  match o with
  | .resp s => s ∈ retryOn
  | .netErr => True

instance (retryOn : List Nat) (o : AttemptOutcome) :
    Decidable (isRetryable retryOn o) := by
  cases o <;> simp [isRetryable] <;> infer_instance

/-- The `while (attempt < maxAttempts)` loop of `fetchWithRetry`, with
`attempt` attempts already made and `fuel = maxAttempts - attempt`
remaining; `att i` is the outcome of the `i`-th (1-based) attempt.  A
response with a status outside `retryOn` — or produced by the final
attempt — is returned by that attempt; otherwise the loop sleeps
`200 * attempt` ms and retries; a network error on the final attempt is
re-thrown. -/
def runFetchAux (retryOn : List Nat) (att : Nat → AttemptOutcome) :
    Nat → Nat → FetchTrace
  | attempt, 0 => ⟨none, attempt, []⟩
  | attempt, fuel + 1 =>
    let cur := attempt + 1
    match att cur with
    | .resp status =>
      if status ∈ retryOn ∧ 0 < fuel then
        let t := runFetchAux retryOn att cur fuel
        ⟨t.result, t.attemptsMade, 200 * cur :: t.delays⟩
      else ⟨some status, cur, []⟩
    | .netErr =>
      if 0 < fuel then
        let t := runFetchAux retryOn att cur fuel
        ⟨t.result, t.attemptsMade, 200 * cur :: t.delays⟩
      else ⟨none, cur, []⟩

/-- `fetchWithRetry(url, { maxAttempts, retryOn })`. -/
def runFetch (retryOn : List Nat) (att : Nat → AttemptOutcome) (maxAttempts : Nat) :
    FetchTrace :=
  runFetchAux retryOn att 0 maxAttempts

/-- `normalizeInteger(raw, fallback)`: missing or unparsable input falls
back. -/
def normalizeInteger (rawValue : Option String) (fallback : Int) : Int :=
  match rawValue with
  | none => fallback
  | some s =>
    if s = "" then fallback
    else match parseIntStr s with
      | none => fallback
      | some n => n

/-- `HTTP_MAX_RETRIES = Math.max(normalizeInteger(env.HTTP_MAX_RETRIES, 3), 1)`. -/
def httpMaxRetries (envVal : Option String) : Nat :=
  (max (normalizeInteger envVal 3) 1).toNat

/-! ### C7 — bounded retries with linear backoff -/

/-- The loop never makes more attempts than it has fuel for. -/
theorem runFetchAux_attempts_le (retryOn : List Nat) (att : Nat → AttemptOutcome) :
    ∀ (fuel attempt : Nat),
      (runFetchAux retryOn att attempt fuel).attemptsMade ≤ attempt + fuel := by
  intro fuel
  induction fuel with
  | zero => intro attempt; simp [runFetchAux]
  | succ f ih =>
    intro attempt
    cases hcur : att (attempt + 1) with
    | resp status =>
      simp only [runFetchAux, hcur]
      split
      · exact le_trans (ih (attempt + 1)) (by omega)
      · show attempt + 1 ≤ attempt + (f + 1)
        omega
    | netErr =>
      simp only [runFetchAux, hcur]
      split
      · exact le_trans (ih (attempt + 1)) (by omega)
      · show attempt + 1 ≤ attempt + (f + 1)
        omega

/-- When attempts `attempt+1 .. k-1` are all retryable and attempt `k`
returns a non-retryable status, the loop returns that status at attempt
`k`, having slept the linearly increasing delays of the earlier
attempts. -/
theorem runFetchAux_stop (retryOn : List Nat) (att : Nat → AttemptOutcome)
    (k s : Nat) (hs : s ∉ retryOn) (hstop : att k = .resp s) :
    ∀ (fuel attempt : Nat), attempt < k → k ≤ attempt + fuel →
      (∀ j, attempt < j → j < k → isRetryable retryOn (att j)) →
      runFetchAux retryOn att attempt fuel =
        ⟨some s, k, (List.range (k - 1 - attempt)).map (fun i => 200 * (attempt + 1 + i))⟩ := by
  intro fuel
  induction fuel with
  | zero => intro attempt h1 h2 _; omega
  | succ f ih =>
    intro attempt h1 h2 hprev
    rcases Nat.lt_or_ge (attempt + 1) k with hlt | hge
    · have hret := hprev (attempt + 1) (by omega) hlt
      have hrec := ih (attempt + 1) hlt (by omega)
        (fun j hj1 hj2 => hprev j (by omega) hj2)
      have hfuel : 0 < f := by omega
      have hrange : k - 1 - attempt = (k - 1 - (attempt + 1)) + 1 := by omega
      have hmap : (List.range (k - 1 - attempt)).map (fun i => 200 * (attempt + 1 + i)) =
          200 * (attempt + 1) ::
            (List.range (k - 1 - (attempt + 1))).map (fun i => 200 * (attempt + 1 + 1 + i)) := by
        rw [hrange, List.range_succ_eq_map, List.map_cons, List.map_map]
        refine congrArg₂ _ (by omega) ?_
        apply List.map_congr_left
        intro i _
        simp only [Function.comp]
        omega
      cases hcur : att (attempt + 1) with
      | resp status =>
        have hmem : status ∈ retryOn := by
          have h := hret
          rw [hcur] at h
          exact h
        simp only [runFetchAux, hcur]
        rw [if_pos ⟨hmem, hfuel⟩, hrec, hmap]
      | netErr =>
        simp only [runFetchAux, hcur]
        rw [if_pos hfuel, hrec, hmap]
    · have hk : attempt + 1 = k := by omega
      have h0 : k - 1 - attempt = 0 := by omega
      simp only [runFetchAux, hk, hstop]
      rw [if_neg (fun hcon => hs hcon.1), h0]
      simp

/-- When every attempt before the last is retryable, the loop runs the full
budget and returns whatever the final attempt produced (its status, or the
re-thrown network error). -/
theorem runFetchAux_exhaust (retryOn : List Nat) (att : Nat → AttemptOutcome) :
    ∀ (fuel attempt : Nat), 0 < fuel →
      (∀ j, attempt < j → j < attempt + fuel → isRetryable retryOn (att j)) →
      runFetchAux retryOn att attempt fuel =
        ⟨(match att (attempt + fuel) with | .resp s => some s | .netErr => none),
         attempt + fuel,
         (List.range (fuel - 1)).map (fun i => 200 * (attempt + 1 + i))⟩ := by
  intro fuel
  induction fuel with
  | zero => intro attempt h _; omega
  | succ f ih =>
    intro attempt _ hprev
    cases Nat.eq_zero_or_pos f with
    | inl hf0 =>
      subst hf0
      cases hcur : att (attempt + 1) with
      | resp status =>
        simp only [runFetchAux, hcur]
        rw [if_neg (fun hcon => absurd hcon.2 (lt_irrefl 0))]
        simp
      | netErr =>
        simp only [runFetchAux, hcur]
        rw [if_neg (lt_irrefl 0)]
        simp
    | inr hfpos =>
      have hret := hprev (attempt + 1) (by omega) (by omega)
      have hrec := ih (attempt + 1) hfpos
        (fun j hj1 hj2 => hprev j (by omega) (by omega))
      have hrange : f + 1 - 1 = (f - 1) + 1 := by omega
      have hmap : (List.range (f + 1 - 1)).map (fun i => 200 * (attempt + 1 + i)) =
          200 * (attempt + 1) ::
            (List.range (f - 1)).map (fun i => 200 * (attempt + 1 + 1 + i)) := by
        rw [hrange, List.range_succ_eq_map, List.map_cons, List.map_map]
        refine congrArg₂ _ (by omega) ?_
        apply List.map_congr_left
        intro i _
        simp only [Function.comp]
        omega
      have harith : attempt + 1 + f = attempt + (f + 1) := by omega
      cases hcur : att (attempt + 1) with
      | resp status =>
        have hmem : status ∈ retryOn := by
          have h := hret
          rw [hcur] at h
          exact h
        simp only [runFetchAux, hcur]
        rw [if_pos ⟨hmem, hfpos⟩, hrec, hmap]
        simp [harith]
      | netErr =>
        simp only [runFetchAux, hcur]
        rw [if_pos hfpos, hrec, hmap]
        simp [harith]

/-- C7: `fetchWithRetry` performs at most the configured number of attempts
(default 3); a response whose status is not one of the transient codes 429,
500, 502, 503, 504 is returned immediately by the attempt that produced it,
with the earlier (all retryable) attempts separated by linearly increasing
delays `200·1, 200·2, …`; when every attempt before the last is retryable
the full budget is used and the final attempt's outcome is returned (or the
network error re-thrown). -/
theorem c7_fetch_retry (att : Nat → AttemptOutcome) (m : Nat) (hm : 1 ≤ m) :
    (runFetch transientCodes att m).attemptsMade ≤ m
    ∧ (∀ k s, 1 ≤ k → k ≤ m → att k = .resp s → s ∉ transientCodes →
        (∀ j, 1 ≤ j → j < k → isRetryable transientCodes (att j)) →
        runFetch transientCodes att m =
          ⟨some s, k, (List.range (k - 1)).map (fun i => 200 * (1 + i))⟩)
    ∧ ((∀ j, 1 ≤ j → j < m → isRetryable transientCodes (att j)) →
        runFetch transientCodes att m =
          ⟨(match att m with | .resp s => some s | .netErr => none), m,
           (List.range (m - 1)).map (fun i => 200 * (1 + i))⟩)
    ∧ httpMaxRetries none = 3 := by
  refine ⟨?_, ?_, ?_, rfl⟩
  · simpa using runFetchAux_attempts_le transientCodes att m 0
  · intro k s hk1 hkm hstop hs hprev
    have h := runFetchAux_stop transientCodes att k s hs hstop m 0 (by omega) (by omega)
      (fun j hj1 hj2 => hprev j (by omega) hj2)
    simpa [runFetch] using h
  · intro hall
    have h := runFetchAux_exhaust transientCodes att m 0 (by omega)
      (fun j hj1 hj2 => hall j (by omega) (by omega))
    simpa [runFetch] using h

/-- Witness for `c7_fetch_retry`: a 503 on the first attempt, then a 404
returned immediately by the second of three allowed attempts, after a
single 200 ms delay. -/
theorem c7_fetch_retry_witness :
    runFetch transientCodes
        (fun j => if j = 1 then .resp 503 else .resp 404) 3 =
      ⟨some 404, 2, [200]⟩ := by
  have h := (c7_fetch_retry (fun j => if j = 1 then .resp 503 else .resp 404) 3
    (by norm_num)).2.1 2 404 (by norm_num) (by norm_num) (by norm_num)
    (by decide)
    (by
      intro j hj1 hj2
      have : j = 1 := by omega
      subst this
      simp [isRetryable, transientCodes])
  simpa using h

/-! ### C6 — definitive 404 short-circuits, and is not cached -/

/-- `response.ok`: status in the 2xx range. -/
def fetchOk (status : Nat) : Bool :=
  decide (200 ≤ status) && decide (status ≤ 299)

/-- How one `fetchChannelMetadataHttp` call ends. -/
inductive MetaOutcome where
  | notFound
  | httpError
  | gotMeta
  | extractFail
  | netThrow
deriving DecidableEq

/-- Observable behaviour of `fetchChannelMetadataHttp`: its terminal
outcome and the total number of network attempts performed. -/
structure MetaTrace where
  outcome : MetaOutcome
  fetchAttempts : Nat
deriving DecidableEq

/-- One iteration of the `while (attempt < 2)` body after the inner
`fetchWithRetry` returned `status`: `404` throws `CHANNEL_NOT_FOUND`, any
other non-ok status throws `CHANNEL_HTTP_ERROR`, otherwise extraction is
tried (`extractOk`). -/
def metaStep (status : Nat) (extractOk : Bool) : MetaOutcome :=
  if status = 404 then .notFound
  else if !fetchOk status then .httpError
  else if extractOk then .gotMeta
  else .extractFail

/-- `fetchChannelMetadataHttp`: up to two outer iterations, each one inner
`fetchWithRetry` (`att₁`/`att₂` give the attempt outcomes, `extractOk i`
whether iteration `i` can parse the page); a thrown `fetchWithRetry` error,
a 404 and a non-ok status all abort the outer loop at once; only a parse
failure is retried once. -/
def fetchChannelMetadataHttp (att₁ att₂ : Nat → AttemptOutcome)
    (extractOk : Nat → Bool) (m : Nat) : MetaTrace :=
  let t₁ := runFetch transientCodes att₁ m
  match t₁.result with
  | none => ⟨.netThrow, t₁.attemptsMade⟩
  | some status =>
    match metaStep status (extractOk 1) with
    | .extractFail =>
      let t₂ := runFetch transientCodes att₂ m
      match t₂.result with
      | none => ⟨.netThrow, t₁.attemptsMade + t₂.attemptsMade⟩
      | some status₂ => ⟨metaStep status₂ (extractOk 2),
          t₁.attemptsMade + t₂.attemptsMade⟩
    | o => ⟨o, t₁.attemptsMade⟩

/-- Observable behaviour of the handler after validation: HTTP status of
the response, whether the browser-automation tier was launched, whether
`storeCachedResponse` ran, and the network attempts consumed. -/
structure HandlerTrace where
  status : Nat
  browserLaunched : Bool
  storedInCache : Bool
  fetchAttempts : Nat
deriving DecidableEq

/-- The handler's tier logic: a `CHANNEL_NOT_FOUND` error returns 404
before the browser fallback and without `storeCachedResponse`; a
successful HTTP tier serves and caches; any other HTTP-tier failure
escalates to the browser tier, whose success serves and caches and whose
failure reports an error, uncached. -/
def handleRetrieval (meta : MetaTrace) (browserOk : Bool) : HandlerTrace :=
  match meta.outcome with
  | .notFound => ⟨404, false, false, meta.fetchAttempts⟩
  | .gotMeta => ⟨200, false, true, meta.fetchAttempts⟩
  | _ =>
    if browserOk then ⟨200, true, true, meta.fetchAttempts⟩
    else ⟨500, true, false, meta.fetchAttempts⟩

/-- Counterexample to C6 as stated: a definitive 404 on the first attempt
terminates as not-found without browser escalation — but nothing is stored
in the response cache, contradicting the claimed short-TTL error
caching. -/
theorem c6_notfound_uncached_counterexample :
    fetchChannelMetadataHttp (fun _ => .resp 404) (fun _ => .resp 200)
        (fun _ => true) 3 = ⟨.notFound, 1⟩
    ∧ handleRetrieval ⟨.notFound, 1⟩ true = ⟨404, false, false, 1⟩
    ∧ (handleRetrieval ⟨.notFound, 1⟩ true).storedInCache = false := by
  refine ⟨?_, rfl, rfl⟩
  decide

/-- C6 (amended): when the lightweight fetch observes a definitive HTTP
404 at attempt `k` (all earlier attempts retryable), the request
terminates as not-found: no second outer iteration, no browser launch, no
further fetch attempts — and the outcome is NOT stored in the response
cache (only success payloads are). -/
theorem c6_notfound_short_circuit (att₁ att₂ : Nat → AttemptOutcome)
    (extractOk : Nat → Bool) (m k : Nat) (hm : 1 ≤ m)
    (hk1 : 1 ≤ k) (hkm : k ≤ m) (h404 : att₁ k = .resp 404)
    (hprev : ∀ j, 1 ≤ j → j < k → isRetryable transientCodes (att₁ j)) :
    fetchChannelMetadataHttp att₁ att₂ extractOk m = ⟨.notFound, k⟩
    ∧ (∀ browserOk,
        handleRetrieval (fetchChannelMetadataHttp att₁ att₂ extractOk m) browserOk =
          ⟨404, false, false, k⟩) := by
  have h404notin : (404 : Nat) ∉ transientCodes := by decide
  have ht₁ : runFetch transientCodes att₁ m =
      ⟨some 404, k, (List.range (k - 1 - 0)).map (fun i => 200 * (0 + 1 + i))⟩ :=
    runFetchAux_stop transientCodes att₁ k 404 h404notin h404 m 0 (by omega) (by omega)
      (fun j hj1 hj2 => hprev j (by omega) hj2)
  have hmeta : fetchChannelMetadataHttp att₁ att₂ extractOk m = ⟨.notFound, k⟩ := by
    unfold fetchChannelMetadataHttp
    rw [ht₁]
    rfl
  exact ⟨hmeta, fun browserOk => by rw [hmeta]; rfl⟩

/-- Witness for `c6_notfound_short_circuit`: a transient 503 then a
definitive 404, three allowed attempts. -/
theorem c6_notfound_short_circuit_witness :
    fetchChannelMetadataHttp (fun j => if j = 1 then .resp 503 else .resp 404)
        (fun _ => .resp 200) (fun _ => true) 3 = ⟨.notFound, 2⟩
    ∧ handleRetrieval
        (fetchChannelMetadataHttp (fun j => if j = 1 then .resp 503 else .resp 404)
          (fun _ => .resp 200) (fun _ => true) 3) true =
        ⟨404, false, false, 2⟩ := by
  have h := c6_notfound_short_circuit (fun j => if j = 1 then .resp 503 else .resp 404)
    (fun _ => .resp 200) (fun _ => true) 3 2 (by norm_num) (by norm_num) (by norm_num)
    (by norm_num)
    (by
      intro j hj1 hj2
      have : j = 1 := by omega
      subst this
      simp [isRetryable, transientCodes])
  exact ⟨h.1, h.2 true⟩

/-! ### Handler gate embedding (C9, C10) -/

/-- `Number.MAX_SAFE_INTEGER`. -/
def maxSafeInteger : Int := 2 ^ 53 - 1

/-- `parseIntegerParameter(raw, { name, defaultValue, min, max })`:
missing/empty input takes the default; a value that does not parse or is
below `min` throws `Invalid value for <name>`; otherwise the value is
clamped above by `max` via `Math.min`. -/
def parseIntegerParameter (raw : Option String) (name : String)
    (defaultValue minV maxV : Int) : Except String Int :=
  match raw with
  | none => .ok defaultValue
  | some s =>
    if s = "" then .ok defaultValue
    else
      match parseIntStr s with
      | none => .error ("Invalid value for " ++ name)
      | some n =>
        if n < minV then .error ("Invalid value for " ++ name)
        else .ok (min n maxV)

/-- `parseOptionalEpoch(raw, name)`: absent stays `null`; unparsable or
negative throws. -/
def parseOptionalEpoch (raw : Option String) (name : String) :
    Except String (Option Int) :=
  match raw with
  | none => .ok none
  | some s =>
    if s = "" then .ok none
    else
      match parseIntStr s with
      | none => .error ("Invalid value for " ++ name)
      | some n =>
        if n < 0 then .error ("Invalid value for " ++ name)
        else .ok (some n)

/-- The inbound request as the handler sees it after header/query
plumbing. -/
structure Request where
  method : String
  username : Option String
  pageRaw : Option String
  perPageRaw : Option String
  startRaw : Option String
  endRaw : Option String
  clientKey : String
  cookies : List (String × String)

/-- How the handler's front matter resolves before any retrieval work. -/
inductive GateResult where
  | optionsOk
  | methodNotAllowed
  | rateLimited (retryAfterSeconds : Nat)
  | invalidInput (message : String)
  | cacheHit (key : String)
  | retrieve (username : String) (page perPage : Int)
      (startEpoch endEpoch : Option Int) (key : String)
deriving DecidableEq

/-- Process-wide mutable state the gate touches: `rateLimitState` and the
key/expiry view of `responseCache` (payload handling is modelled
separately). -/
structure ServerState where
  rl : List (String × List RateBucket)
  cache : List (String × Nat)
deriving DecidableEq

/-- `rateLimitState.get`. -/
def rlGet (m : List (String × List RateBucket)) (k : String) :
    Option (List RateBucket) :=
  match m with
  | [] => none
  | (k', v) :: rest => if k' = k then some v else rlGet rest k

/-- `rateLimitState.set`. -/
def rlSet (m : List (String × List RateBucket)) (k : String)
    (v : List RateBucket) : List (String × List RateBucket) :=
  match m with
  | [] => [(k, v)]
  | (k', v') :: rest => if k' = k then (k, v) :: rest else (k', v') :: rlSet rest k v

/-- `responseCache.get` restricted to expiry metadata. -/
def ckGet (m : List (String × Nat)) (k : String) : Option Nat :=
  match m with
  | [] => none
  | (k', v) :: rest => if k' = k then some v else ckGet rest k

/-- `responseCache.delete` restricted to expiry metadata. -/
def ckDelete (m : List (String × Nat)) (k : String) : List (String × Nat) :=
  match m with
  | [] => []
  | (k', v') :: rest => if k' = k then rest else (k', v') :: ckDelete rest k

/-- Lexicographic sort of the `name=value` cookie strings (`Array.sort`
default comparator on strings). -/
def sortStrings (l : List String) : List String :=
  List.insertionSort (fun a b : String => a ≤ b) l

/-- `createCacheKey({username, page, perPage, startEpoch, endEpoch,
cookies})`: lowercase target, `::`-joined query fields, then `public` or a
hash (`sha256`, an external primitive) of the sorted cookie pairs. -/
def createCacheKey (hash : String → String) (username : String)
    (page perPage : Int) (startEpoch endEpoch : Option Int)
    (cookies : List (String × String)) : String :=
  let base := username.toLower ++ "::" ++ toString page ++ "::" ++ toString perPage
    ++ "::" ++ (match startEpoch with | some v => toString v | none => "")
    ++ "::" ++ (match endEpoch with | some v => toString v | none => "")
  if cookies.isEmpty then base ++ "::public"
  else base ++ "::" ++
    hash (String.intercalate "|"
      (sortStrings (cookies.map (fun c => c.1 ++ "=" ++ c.2))))

/-- The cache-lookup tail of the gate: consult the cache (lazily deleting
an expired entry) and either serve the hit or hand off to retrieval. -/
def gateCacheStep (cfg : CacheConfig) (now : Nat) (st₁ : ServerState)
    (username : String) (pageNum perPageNum : Int)
    (startEpoch endEpoch : Option Int) (key : String) : GateResult × ServerState :=
  if cacheEnabled cfg then
    match ckGet st₁.cache key with
    | some exp =>
      if exp ≤ now then
        (.retrieve username pageNum perPageNum startEpoch endEpoch key,
         { st₁ with cache := ckDelete st₁.cache key })
      else (.cacheHit key, st₁)
    | none => (.retrieve username pageNum perPageNum startEpoch endEpoch key, st₁)
  else (.retrieve username pageNum perPageNum startEpoch endEpoch key, st₁)

/-- The handler front matter, in source order: OPTIONS early-return, 405
for other non-GET methods, `enforceRateLimit` (counters updated before
anything else), username presence, pagination/epoch parsing, epoch order,
cache lookup, retrieval hand-off. -/
def handlerGate (rules : List RateRule) (cfg : CacheConfig)
    (hash : String → String) (req : Request) (now : Nat) (st : ServerState) :
    GateResult × ServerState :=
  if req.method = "OPTIONS" then (.optionsOk, st)
  else if req.method ≠ "GET" then (.methodNotAllowed, st)
  else
    let res := rateCheck rules now (rlGet st.rl req.clientKey)
    let st₁ := { st with rl := rlSet st.rl req.clientKey res.1 }
    if res.2.1 then (.rateLimited res.2.2, st₁)
    else
      match req.username with
      | none => (.invalidInput "Missing required parameter: username", st₁)
      | some uraw =>
        if jsTrim uraw = "" then
          (.invalidInput "Missing required parameter: username", st₁)
        else
          let username := jsTrim (stripAt uraw)
          match parseIntegerParameter req.pageRaw "page" 1 1 maxSafeInteger with
          | .error msg => (.invalidInput msg, st₁)
          | .ok pageNum =>
            match parseIntegerParameter req.perPageRaw "per-page" 10 1 100 with
            | .error msg => (.invalidInput msg, st₁)
            | .ok perPageNum =>
              match parseOptionalEpoch req.startRaw "start_epoch" with
              | .error msg => (.invalidInput msg, st₁)
              | .ok startEpoch =>
                match parseOptionalEpoch req.endRaw "end_epoch" with
                | .error msg => (.invalidInput msg, st₁)
                | .ok endEpoch =>
                  if (match startEpoch, endEpoch with
                      | some sv, some ev => decide (ev < sv)
                      | _, _ => false) then
                    (.invalidInput
                      "start_epoch must be less than or equal to end_epoch", st₁)
                  else
                    gateCacheStep cfg now st₁ username pageNum perPageNum
                      startEpoch endEpoch
                      (createCacheKey hash username pageNum perPageNum
                        startEpoch endEpoch req.cookies)

/-! ### C10 — quota consumed by every GET, and only by GETs -/

/-- One `stepBucket` per configured window, in order: the updated bucket
array. -/
def steppedBuckets (now : Nat) : List RateRule → List (Option RateBucket) →
    List RateBucket
  | [], _ => []
  | rule :: rs, st => stepBucket rule now (headOpt st) :: steppedBuckets now rs (st.drop 1)

/-- `enforceRateLimit` writes back exactly one `stepBucket` update per
configured window. -/
theorem enforceGo_fst (now : Nat) :
    ∀ (rules : List RateRule) (st : List (Option RateBucket)),
      (enforceGo now rules st).1 = steppedBuckets now rules st := by
  intro rules
  induction rules with
  | nil => intro st; rfl
  | cons rule rs ih =>
    intro st
    simp only [enforceGo, steppedBuckets, ih]

/-- The cache-lookup tail never touches the rate-limit map. -/
theorem gateCacheStep_rl (cfg : CacheConfig) (now : Nat) (st₁ : ServerState)
    (u : String) (p pp : Int) (s e : Option Int) (key : String) :
    (gateCacheStep cfg now st₁ u p pp s e key).2.rl = st₁.rl := by
  unfold gateCacheStep
  split
  · split
    · split <;> rfl
    · rfl
  · rfl

/-- Counterexample to C10 as stated: a POST request is a non-OPTIONS
inbound request, yet it is rejected with 405 before `enforceRateLimit`
runs, leaving every rate-limit counter untouched. -/
theorem c10_post_skips_rate_limit :
    handlerGate [⟨60000, 60⟩] ⟨120000, 100⟩ (fun _ => "h")
        { method := "POST", username := some "user", pageRaw := none,
          perPageRaw := none, startRaw := none, endRaw := none,
          clientKey := "1.2.3.4", cookies := [] } 0 ⟨[], []⟩ =
      (.methodNotAllowed, ⟨[], []⟩) := by
  rfl

/-- C10 (amended): every GET request updates each configured rate-limit
counter exactly once (one `stepBucket` per window), before username
validation, parameter parsing and the cache lookup — so invalid-input
requests, cache hits and rate-limited requests all consume quota — while
OPTIONS requests and non-GET requests leave the counters untouched. -/
theorem c10_rate_limit_first (rules : List RateRule) (cfg : CacheConfig)
    (hash : String → String) (req : Request) (now : Nat) (st : ServerState) :
    (req.method = "GET" →
      (handlerGate rules cfg hash req now st).2.rl =
        rlSet st.rl req.clientKey
          (rateCheck rules now (rlGet st.rl req.clientKey)).1)
    ∧ (req.method = "OPTIONS" →
        handlerGate rules cfg hash req now st = (.optionsOk, st))
    ∧ (req.method ≠ "GET" → req.method ≠ "OPTIONS" →
        handlerGate rules cfg hash req now st = (.methodNotAllowed, st))
    ∧ (∀ prev, (rateCheck rules now prev).1 =
        steppedBuckets now rules
          (match prev with | none => [] | some bs => bs.map some)) := by
  refine ⟨?_, ?_, ?_, ?_⟩
  · intro hget
    unfold handlerGate
    rw [hget]
    rw [if_neg (by decide)]
    rw [if_neg (by decide)]
    dsimp only
    (repeat' split) <;> first | rfl | rw [gateCacheStep_rl]
  · intro hopt
    unfold handlerGate
    rw [hopt, if_pos rfl]
  · intro hng hno
    unfold handlerGate
    rw [if_neg hno, if_pos hng]
  · intro prev
    exact enforceGo_fst now rules _

/-- Witness for `c10_rate_limit_first`: a GET request with an unparsable
`per-page` still writes the stepped counter for its client. -/
theorem c10_rate_limit_first_witness :
    (handlerGate [⟨60000, 60⟩] ⟨120000, 100⟩ (fun _ => "h")
        { method := "GET", username := some "user", pageRaw := none,
          perPageRaw := some "abc", startRaw := none, endRaw := none,
          clientKey := "1.2.3.4", cookies := [] } 0 ⟨[], []⟩).2.rl =
      rlSet ([] : List (String × List RateBucket)) "1.2.3.4"
        (rateCheck [⟨60000, 60⟩] 0
          (rlGet ([] : List (String × List RateBucket)) "1.2.3.4")).1 :=
  (c10_rate_limit_first [⟨60000, 60⟩] ⟨120000, 100⟩ (fun _ => "h")
    { method := "GET", username := some "user", pageRaw := none,
      perPageRaw := some "abc", startRaw := none, endRaw := none,
      clientKey := "1.2.3.4", cookies := [] } 0 ⟨[], []⟩).1 rfl

/-! ### C9 — oversized per-page is clamped, invalid values are rejected -/

/-- A parsed `per-page` value above the maximum is clamped to `100`. -/
theorem perPage_clamp_helper (s : String) (n : Int)
    (hp : parseIntStr s = some n) (hn : 100 < n) :
    parseIntegerParameter (some s) ("per-page") 10 1 100 = .ok 100 := by
  have hse : s ≠ "" := by
    intro h
    have h0 : parseIntStr "" = none := by decide
    rw [h, h0] at hp
    exact Option.noConfusion hp
  simp only [parseIntegerParameter, if_neg hse, hp]
  rw [if_neg (by omega), min_eq_right (by omega : (100 : Int) ≤ n)]

/-- A non-empty, non-numeric `per-page` throws. -/
theorem perPage_nan_helper (s : String) (hse : s ≠ "")
    (hno : parseIntStr s = none) :
    parseIntegerParameter (some s) ("per-page") 10 1 100 =
      .error ("Invalid value for " ++ "per-page") := by
  simp [parseIntegerParameter, hse, hno]

/-- A parsed `per-page` value below the minimum of 1 throws. -/
theorem perPage_low_helper (s : String) (n : Int)
    (hp : parseIntStr s = some n) (hn : n < 1) :
    parseIntegerParameter (some s) ("per-page") 10 1 100 =
      .error ("Invalid value for " ++ "per-page") := by
  have hse : s ≠ "" := by
    intro h
    have h0 : parseIntStr "" = none := by decide
    rw [h, h0] at hp
    exact Option.noConfusion hp
  simp only [parseIntegerParameter, if_neg hse, hp]
  rw [if_pos hn]

/-- C9: a `per-page` value parsing to an integer above 100 is not rejected:
the handler silently clamps it to 100 and proceeds to retrieval with page
size 100; a non-numeric or below-minimum `per-page` instead yields an
invalid-input result before any retrieval. -/
theorem c9_perpage_clamped (s : String) (n : Int) (now : Nat) :
    (parseIntStr s = some n → 100 < n →
      parseIntegerParameter (some s) ("per-page") 10 1 100 = .ok 100)
    ∧ (s ≠ "" → parseIntStr s = none →
        parseIntegerParameter (some s) ("per-page") 10 1 100 =
          .error ("Invalid value for " ++ "per-page"))
    ∧ (parseIntStr s = some n → n < 1 →
        parseIntegerParameter (some s) ("per-page") 10 1 100 =
          .error ("Invalid value for " ++ "per-page"))
    ∧ (∀ (hash : String → String) (st : ServerState) (u : String),
        parseIntStr s = some n → 100 < n → jsTrim u ≠ "" →
        (handlerGate [] ⟨0, 0⟩ hash
          { method := "GET", username := some u, pageRaw := none,
            perPageRaw := some s, startRaw := none, endRaw := none,
            clientKey := "c", cookies := [] } now st).1 =
          .retrieve (jsTrim (stripAt u)) 1 100 none none
            (createCacheKey hash (jsTrim (stripAt u)) 1 100 none none []))
    ∧ (∀ (hash : String → String) (st : ServerState) (u : String),
        jsTrim u ≠ "" → s ≠ "" → parseIntStr s = none →
        (handlerGate [] ⟨0, 0⟩ hash
          { method := "GET", username := some u, pageRaw := none,
            perPageRaw := some s, startRaw := none, endRaw := none,
            clientKey := "c", cookies := [] } now st).1 =
          .invalidInput ("Invalid value for " ++ "per-page")) := by
  refine ⟨perPage_clamp_helper s n, perPage_nan_helper s, perPage_low_helper s n, ?_, ?_⟩
  · intro hash st u hp hn hu
    have hpp := perPage_clamp_helper s n hp hn
    have hpage : parseIntegerParameter none ("page") 1 1 maxSafeInteger = .ok 1 := rfl
    have heps : parseOptionalEpoch none ("start_epoch") = .ok none := rfl
    have hepe : parseOptionalEpoch none ("end_epoch") = .ok none := rfl
    unfold handlerGate
    dsimp only
    rw [if_neg (by decide), if_neg (by decide)]
    dsimp only [rateCheck, enforceGo]
    rw [if_neg (by decide), if_neg hu, hpage, hpp, heps, hepe]
    dsimp only
    rw [if_neg (by decide)]
    simp [gateCacheStep, cacheEnabled]
  · intro hash st u hu hse hno
    have hpp := perPage_nan_helper s hse hno
    have hpage : parseIntegerParameter none ("page") 1 1 maxSafeInteger = .ok 1 := rfl
    unfold handlerGate
    dsimp only
    rw [if_neg (by decide), if_neg (by decide)]
    dsimp only [rateCheck, enforceGo]
    rw [if_neg (by decide), if_neg hu, hpage, hpp]

/-- Witness for `c9_perpage_clamped` at `per-page` values `250`, `abc`
and `0`. -/
theorem c9_perpage_clamped_witness :
    parseIntegerParameter (some "250") ("per-page") 10 1 100 = .ok 100
    ∧ parseIntegerParameter (some "abc") ("per-page") 10 1 100 =
        .error ("Invalid value for " ++ "per-page")
    ∧ parseIntegerParameter (some "0") ("per-page") 10 1 100 =
        .error ("Invalid value for " ++ "per-page")
    ∧ (handlerGate [] ⟨0, 0⟩ (fun _ => "h")
        { method := "GET", username := some "user", pageRaw := none,
          perPageRaw := some "250", startRaw := none, endRaw := none,
          clientKey := "c", cookies := [] } 0 ⟨[], []⟩).1 =
      .retrieve (jsTrim (stripAt "user")) 1 100 none none
        (createCacheKey (fun _ => "h") (jsTrim (stripAt "user")) 1 100 none none []) := by
  refine ⟨(c9_perpage_clamped "250" 250 0).1 (by decide) (by decide),
    (c9_perpage_clamped "abc" 0 0).2.1 (by decide) (by decide),
    (c9_perpage_clamped "0" 0 0).2.2.1 (by decide) (by decide),
    (c9_perpage_clamped "250" 250 0).2.2.2.1 (fun _ => "h") ⟨[], []⟩ "user"
      (by decide) (by decide) (by decide)⟩
